import Mathlib

/-!
Verification development for the realtime telephony/voice-agent bridge.

The definitions below are a shallow embedding of the repository's core:
the μ-law codec and the speech-activity detector of `ElevenLabsSession`
(`src/unnamed/part_005`), the session's audio-dispatch queue and drain
loop together with the interruption protocol, the initiation-payload
builder, and the provider `ConnectionPool` (`src/unnamed/part_003`).
JavaScript numbers that stay integral are rendered as `Nat`/`Int`;
bitwise operations on values separated into sign and magnitude are
rendered as `Nat` operations, exactly as the source computes them.
-/

namespace Bridge

/-! ## Codec: `linearToMulaw` / `mulawToLinear` (src/unnamed/part_005, lines 421-438 and 562-577) -/

/-- The exponent-search loop of `linearToMulaw`:
`for (let expMask = 0x4000; (sample & expMask) === 0 && exponent > 0; exponent--, expMask >>= 1) {}`
started at `exponent = 7`.  The argument is the current exponent; at
exponent `e+1` the mask is `2^(e+8)` (so at 7 the mask is `0x4000`). -/
def muExpLoop (sample : Nat) : Nat → Nat
  | 0 => 0
  | e + 1 => if sample &&& (2 ^ (e + 8)) = 0 then muExpLoop sample e else e + 1

/-- `linearToMulaw` from the source: 16-bit linear PCM sample to 8-bit μ-law byte.
`sign = (sample >> 8) & 0x80` is the JS arithmetic shift followed by a
32-bit bitwise and; for any integer input it equals bit 7 of the low
byte of `⌊sample / 256⌋` in two's complement, written here with `fdiv`
and a Euclidean remainder.  `~x & 0xFF` for `x < 256` is `255 - x`. -/
def linearToMulaw (sample : Int) : Nat :=
  let sign : Nat := (((sample.fdiv 256).emod 256).toNat) &&& 0x80
  let s1 : Int := if sign ≠ 0 then -sample else sample
  let s2 : Int := if s1 > 32635 then 32635 else s1
  let t : Nat := (s2 + 132).toNat
  let exponent : Nat := muExpLoop t 7
  let mantissa : Nat := (t >>> (exponent + 3)) &&& 0x0F
  255 - (sign ||| (exponent <<< 4) ||| mantissa)

/-- The decoder's exponent lookup table (`exp_lut` in `mulawToLinear`). -/
def expLut : List Int := [0, 132, 396, 924, 1980, 4092, 8316, 16764]

/-- `mulawToLinear` from the source: 8-bit μ-law byte to 16-bit linear PCM.
The source computes `mulaw = ~mulaw` and then extracts bit fields; for a
byte input `b ∈ [0,255]` every extracted field equals the corresponding
field of `255 - b`, which is how it is written here.  Note the source
subtracts `MULAW_BIAS = 33` after an `exp_lut` that already folds in the
encoder's bias of `0x84 = 132`. -/
def mulawToLinear (mulaw : Nat) : Int :=
  let n : Nat := 255 - (mulaw % 256)
  let sign : Nat := n &&& 0x80
  let exponent : Nat := (n >>> 4) &&& 0x07
  let mantissa : Nat := n &&& 0x0F
  let sample : Int := expLut.getD exponent 0 + ((mantissa <<< (exponent + 3) : Nat) : Int)
  let sample : Int := sample - 33
  if sign ≠ 0 then -sample else sample

/-! ## Speech activity detection: `detectSpeech` (src/unnamed/part_005, lines 508-527)

The source computes `rms = Math.sqrt(sum / samples.length)` over the
16-bit samples and compares `rms > 1200`; for nonnegative `sum` this is
equivalent to the exact integer comparison `sum > 1200² · length`, which
is how the comparison is rendered (no floating point). -/

/-- Sum of squared samples (the `sum` accumulator of `detectSpeech`). -/
def sumSquares (samples : List Int) : Int :=
  samples.foldl (fun acc s => acc + s * s) 0

/-- Maximum absolute amplitude (the `maxAmplitude` accumulator, starting at 0). -/
def maxAmplitude (samples : List Int) : Nat :=
  samples.foldl (fun m s => max m s.natAbs) 0

/-- `detectSpeech`: a frame is speech-like iff its RMS exceeds 1200 or its
peak absolute amplitude exceeds 3500 (`rms > rmsThreshold || maxAmplitude > peakThreshold`). -/
def detectSpeech (samples : List Int) : Bool :=
  decide (sumSquares samples > 1200 * 1200 * (samples.length : Int)) ||
    decide (maxAmplitude samples > 3500)

/-! ## Call Session: dispatch queue, drain loop, interruption, VAD
(src/unnamed/part_005: `handleElevenLabsMessage` lines 272-361,
`processAudioQueue` lines 363-402, `handleMessage` lines 690-805)

The session runs on a single-threaded event loop.  `processAudioQueue`
is an `async` function: each invocation runs synchronously from its
guard up to the first `await` of the 10 ms pacing delay inside the
`while` loop, then suspends; when the timer fires it resumes at the
`while` condition.  The state therefore carries, besides the fields of
the class, the number of drain-loop activations currently suspended at
the pacing `await` (`pendingDrains`).  Messages written to the two
sockets are recorded in logs.  Provider audio payloads (base64 strings)
are abstracted as `Nat` identifiers; telephony media payloads are the
decoded PCM frames handed to `detectSpeech` (the μ-law → PCM conversion
`convertMulawToPCM` is upstream of everything modelled here and
preserves frame identity, so the event carries the converted frame). -/

/-- A message sent to the telephony (Twilio) socket: a `media` frame or
the `clear` control message of `clearTwilioAudio`. -/
inductive TwilioMsg
  | media (frame : Nat)
  | clear
deriving DecidableEq, Repr

/-- A message sent to the provider (ElevenLabs) socket by the paths
modelled here: the `user_activity` interruption signal or a
`user_audio_chunk` with the forwarded PCM frame. -/
inductive ProviderMsg
  | userActivity
  | userAudioChunk (pcm : List Int)
deriving DecidableEq, Repr

/-- The session fields touched by the audio paths of
`ElevenLabsSession`, plus the drain-suspension count and the send logs. -/
structure SessState where
  audioQueue : List Nat
  isProcessingAudio : Bool
  pendingDrains : Nat
  isUserSpeaking : Bool
  consecutiveSilentChunks : Nat
  consecutiveSpeechFrames : Nat
  minSpeechFrames : Nat
  silenceThreshold : Nat
  speechStartTime : Nat
  lastConnectionWarning : Option Nat
  hasWs : Bool
  isConnected : Bool
  twilioSent : List TwilioMsg
  elSent : List ProviderMsg
deriving DecidableEq, Repr

/-- Events interleaved by the event loop: a provider `audio` event, a
provider `interruption` event, a telephony `media` event (at wall-clock
`now`, carrying the decoded PCM frame), and the firing of one pacing
timer that resumes a suspended drain loop. -/
inductive SessEv
  | elAudio (frame : Nat)
  | elInterrupt
  | twMedia (now : Nat) (pcm : List Int)
  | drain
deriving DecidableEq, Repr

/-- The `interruption` branch of `handleElevenLabsMessage`:
`audioQueue = []`, `isProcessingAudio = false`, then `clearTwilioAudio()`. -/
def handleInterruption (s : SessState) : SessState :=
  { s with audioQueue := [], isProcessingAudio := false,
           twilioSent := s.twilioSent ++ [TwilioMsg.clear] }

/-- The `audio` branch of `handleElevenLabsMessage`: push the payload and
invoke `processAudioQueue`, whose synchronous prefix either returns at
the guard (`isProcessingAudio || queue empty`) or sets the flag,
dequeues and sends the first frame, and suspends at the pacing `await`. -/
def handleElAudio (s : SessState) (frame : Nat) : SessState :=
  let q := s.audioQueue ++ [frame]
  if s.isProcessingAudio then { s with audioQueue := q }
  else
    match q with
    | [] => { s with audioQueue := q }
    | g :: rest =>
      { s with audioQueue := rest, isProcessingAudio := true,
               pendingDrains := s.pendingDrains + 1,
               twilioSent := s.twilioSent ++ [TwilioMsg.media g] }

/-- One resumption of a suspended drain loop: re-check the `while`
condition; if the queue is nonempty, dequeue, send, and suspend again at
the next pacing `await`; otherwise leave the loop and reset
`isProcessingAudio`. -/
def drainResume (s : SessState) : SessState :=
  if s.pendingDrains = 0 then s
  else
    match s.audioQueue with
    | [] => { s with isProcessingAudio := false, pendingDrains := s.pendingDrains - 1 }
    | g :: rest =>
      { s with audioQueue := rest, twilioSent := s.twilioSent ++ [TwilioMsg.media g] }

/-- The `media` branch of `handleMessage`: when the provider socket is
present and connected, run the VAD hysteresis counters over
`detectSpeech` of the decoded frame (interrupting the agent on the
SILENT→SPEAKING transition) and always forward the frame as a
`user_audio_chunk`; otherwise, when not connected, only throttle-update
`lastConnectionWarning`. -/
def handleTwMedia (s : SessState) (now : Nat) (pcm : List Int) : SessState :=
  if s.hasWs ∧ s.isConnected then
    let isSpeech := detectSpeech pcm
    let s1 :=
      if isSpeech then
        let t := { s with consecutiveSilentChunks := 0,
                          consecutiveSpeechFrames := s.consecutiveSpeechFrames + 1 }
        if ¬t.isUserSpeaking ∧ t.consecutiveSpeechFrames ≥ t.minSpeechFrames then
          { t with isUserSpeaking := true, speechStartTime := now,
                   elSent := t.elSent ++ [ProviderMsg.userActivity],
                   audioQueue := [], isProcessingAudio := false,
                   twilioSent := t.twilioSent ++ [TwilioMsg.clear] }
        else t
      else
        let t := { s with consecutiveSilentChunks := s.consecutiveSilentChunks + 1,
                          consecutiveSpeechFrames := 0 }
        if t.isUserSpeaking ∧ t.consecutiveSilentChunks ≥ t.silenceThreshold then
          { t with isUserSpeaking := false }
        else t
    { s1 with elSent := s1.elSent ++ [ProviderMsg.userAudioChunk pcm] }
  else if ¬s.isConnected then
    match s.lastConnectionWarning with
    | none => { s with lastConnectionWarning := some now }
    | some w => if now - w > 1000 then { s with lastConnectionWarning := some now } else s
  else s

/-- One event-loop step of the session. -/
def sessStep (s : SessState) : SessEv → SessState
  | SessEv.elAudio f => handleElAudio s f
  | SessEv.elInterrupt => handleInterruption s
  | SessEv.twMedia now pcm => handleTwMedia s now pcm
  | SessEv.drain => drainResume s

/-- Run a list of events. -/
def sessRun (s : SessState) (evs : List SessEv) : SessState :=
  evs.foldl sessStep s

/-- A fresh session in the ACTIVE state (provider handshake complete),
with the constructor's field initializers of `ElevenLabsSession`
(part_005): empty queue, flags down, zero VAD counters,
`minSpeechFrames = 8`, `silenceThreshold = 15`. -/
def activeInit : SessState :=
  { audioQueue := [], isProcessingAudio := false, pendingDrains := 0,
    isUserSpeaking := false, consecutiveSilentChunks := 0,
    consecutiveSpeechFrames := 0, minSpeechFrames := 8, silenceThreshold := 15,
    speechStartTime := 0, lastConnectionWarning := none,
    hasWs := true, isConnected := true, twilioSent := [], elSent := [] }

/-- Number of `clear` control messages in a telephony send log. -/
def clearCount (l : List TwilioMsg) : Nat :=
  (l.filter (fun m => m = TwilioMsg.clear)).length

/-- An interruption trigger at state `s`: a provider `interruption`
event, or a telephony `media` event whose frame makes the local VAD
transition SILENT→SPEAKING (the `user_activity` branch of `handleMessage`). -/
def firesTrigger (s : SessState) : SessEv → Bool
  | SessEv.elInterrupt => true
  | SessEv.twMedia _ pcm =>
      s.hasWs && s.isConnected && detectSpeech pcm && !s.isUserSpeaking &&
        decide (s.consecutiveSpeechFrames + 1 ≥ s.minSpeechFrames)
  | _ => false

/-- A trace is calm when no event in it fires an interruption trigger at
the state where it is handled. -/
def calmTrace : SessState → List SessEv → Bool
  | _, [] => true
  | s, e :: r => !firesTrigger s e && calmTrace (sessStep s e) r

theorem sessRun_cons (s : SessState) (e : SessEv) (r : List SessEv) :
    sessRun s (e :: r) = sessRun (sessStep s e) r := rfl

/-- Every step only appends to the telephony send log, and any `media`
frame it appends was either in the queue before the step or carried by
the event itself. -/
theorem sessStep_twilioSent (s : SessState) (e : SessEv) :
    ∃ δ, (sessStep s e).twilioSent = s.twilioSent ++ δ ∧
      ∀ g, TwilioMsg.media g ∈ δ → g ∈ s.audioQueue ∨ e = SessEv.elAudio g := by
  cases e with
  | elAudio f =>
    simp only [sessStep, handleElAudio]
    by_cases hp : s.isProcessingAudio
    · exact ⟨[], by simp [hp], by simp⟩
    · cases hq : s.audioQueue with
      | nil => exact ⟨[TwilioMsg.media f], by simp [hp, hq], by simp⟩
      | cons a tl => exact ⟨[TwilioMsg.media a], by simp [hp, hq], by simp [hq]⟩
  | elInterrupt => exact ⟨[TwilioMsg.clear], rfl, by simp⟩
  | twMedia now pcm =>
    simp only [sessStep, handleTwMedia]
    by_cases hcon : s.hasWs = true ∧ s.isConnected = true
    · simp only [if_pos hcon]
      by_cases hsp : detectSpeech pcm
      · simp only [hsp, if_pos]
        by_cases htr : s.isUserSpeaking = false ∧
            s.minSpeechFrames ≤ s.consecutiveSpeechFrames + 1
        · exact ⟨[TwilioMsg.clear], by simp [htr], by simp⟩
        · exact ⟨[], by simp [htr], by simp⟩
      · simp only [hsp]
        by_cases hfl : s.isUserSpeaking = true ∧
            s.silenceThreshold ≤ s.consecutiveSilentChunks + 1
        · exact ⟨[], by simp [hfl], by simp⟩
        · exact ⟨[], by simp [hfl], by simp⟩
    · simp only [if_neg hcon]
      by_cases hnc : ¬s.isConnected = true
      · simp only [if_pos hnc]
        cases hw : s.lastConnectionWarning with
        | none => exact ⟨[], by simp [hw], by simp⟩
        | some w =>
          by_cases ht : now - w > 1000
          · exact ⟨[], by simp [hw, ht], by simp⟩
          · exact ⟨[], by simp [hw, ht], by simp⟩
      · exact ⟨[], by simp [hnc], by simp⟩
  | drain =>
    simp only [sessStep, drainResume]
    by_cases hp : s.pendingDrains = 0
    · exact ⟨[], by simp [hp], by simp⟩
    · cases hq : s.audioQueue with
      | nil => exact ⟨[], by simp [hp, hq], by simp⟩
      | cons a tl => exact ⟨[TwilioMsg.media a], by simp [hp, hq], by simp [hq]⟩

/-- Every frame in the queue after a step was in the queue before it or
was pushed by the event itself. -/
theorem sessStep_audioQueue (s : SessState) (e : SessEv) :
    ∀ x ∈ (sessStep s e).audioQueue, x ∈ s.audioQueue ∨ e = SessEv.elAudio x := by
  cases e with
  | elAudio f =>
    simp only [sessStep, handleElAudio]
    by_cases hp : s.isProcessingAudio
    · intro x hx
      simp only [if_pos hp] at hx
      rcases List.mem_append.1 hx with h | h
      · exact Or.inl h
      · simp at h; simp [h]
    · cases hq : s.audioQueue with
      | nil => intro x hx; simp [hp, hq] at hx
      | cons a tl =>
        intro x hx
        simp only [hp, hq] at hx
        simp only [List.cons_append] at hx
        simp only [if_neg (by simp : ¬(false = true))] at hx
        rcases List.mem_append.1 hx with h | h
        · exact Or.inl (by simp [hq, h])
        · simp at h; simp [h]
  | elInterrupt => intro x hx; simp [sessStep, handleInterruption] at hx
  | twMedia now pcm =>
    intro x hx
    left
    simp only [sessStep, handleTwMedia] at hx
    by_cases hcon : s.hasWs = true ∧ s.isConnected = true
    · simp only [if_pos hcon] at hx
      by_cases hsp : detectSpeech pcm
      · simp only [hsp, if_pos] at hx
        by_cases htr : s.isUserSpeaking = false ∧
            s.minSpeechFrames ≤ s.consecutiveSpeechFrames + 1
        · simp [htr] at hx
        · simpa [htr] using hx
      · simp only [hsp] at hx
        by_cases hfl : s.isUserSpeaking = true ∧
            s.silenceThreshold ≤ s.consecutiveSilentChunks + 1
        · simpa [hfl] using hx
        · simpa [hfl] using hx
    · simp only [if_neg hcon] at hx
      by_cases hnc : ¬s.isConnected = true
      · simp only [if_pos hnc] at hx
        cases hw : s.lastConnectionWarning with
        | none => simpa [hw] using hx
        | some w =>
          by_cases ht : now - w > 1000
          · simpa [hw, ht] using hx
          · simpa [hw, ht] using hx
      · simpa [hnc] using hx
  | drain =>
    intro x hx
    left
    simp only [sessStep, drainResume] at hx
    by_cases hp : s.pendingDrains = 0
    · simpa [hp] using hx
    · cases hq : s.audioQueue with
      | nil => simp [hp, hq] at hx
      | cons a tl => simp only [hp, hq] at hx; simp at hx; simp [hq, hx]

/-- Safety bookkeeping for a frame `f` that must never be dispatched:
it is not queued and no `media f` appears in the log past position `n`. -/
def SafeFor (f : Nat) (n : Nat) (st : SessState) : Prop :=
  f ∉ st.audioQueue ∧ TwilioMsg.media f ∉ st.twilioSent.drop n ∧ n ≤ st.twilioSent.length

theorem SafeFor.step_safe {f n : Nat} {st : SessState} (h : SafeFor f n st) (e : SessEv)
    (he : ∀ g, e = SessEv.elAudio g → g ≠ f) : SafeFor f n (sessStep st e) := by
  obtain ⟨hq, hs, hn⟩ := h
  obtain ⟨δ, hδ, hmem⟩ := sessStep_twilioSent st e
  refine ⟨?_, ?_, ?_⟩
  · intro hx
    rcases sessStep_audioQueue st e f hx with h1 | h1
    · exact hq h1
    · exact he f h1 rfl
  · rw [hδ, List.drop_append_of_le_length hn]
    intro hx
    rcases List.mem_append.1 hx with h1 | h1
    · exact hs h1
    · rcases hmem f h1 with h2 | h2
      · exact hq h2
      · exact he f h2 rfl
  · rw [hδ, List.length_append]; omega

theorem SafeFor.run_safe {f n : Nat} {st : SessState} (h : SafeFor f n st) (evs : List SessEv)
    (he : ∀ g, SessEv.elAudio g ∈ evs → g ≠ f) : SafeFor f n (sessRun st evs) := by
  induction evs generalizing st with
  | nil => exact h
  | cons e r ih =>
    rw [sessRun_cons]
    exact ih (h.step_safe e (fun g hg => he g (by simp [hg])))
      (fun g hg => he g (List.mem_cons_of_mem _ hg))

theorem clearCount_append (l₁ l₂ : List TwilioMsg) :
    clearCount (l₁ ++ l₂) = clearCount l₁ + clearCount l₂ := by
  simp [clearCount, List.filter_append]

/-- The state after an interruption trigger carried by a telephony media
frame: queue emptied and exactly one `clear` appended. -/
theorem trigger_step_state (s : SessState) (now : Nat) (pcm : List Int)
    (h : firesTrigger s (SessEv.twMedia now pcm) = true) :
    (sessStep s (SessEv.twMedia now pcm)).audioQueue = [] ∧
    (sessStep s (SessEv.twMedia now pcm)).twilioSent = s.twilioSent ++ [TwilioMsg.clear] := by
  simp only [firesTrigger, Bool.and_eq_true, Bool.not_eq_true', decide_eq_true_eq] at h
  obtain ⟨⟨⟨⟨hws, hc⟩, hsp⟩, hns⟩, hge⟩ := h
  have htr : ¬s.isUserSpeaking = true ∧
      s.consecutiveSpeechFrames + 1 ≥ s.minSpeechFrames := by
    constructor
    · simp [hns]
    · exact hge
  simp [sessStep, handleTwMedia, hws, hc, hsp, htr]

/-- **C1** (corrected wording below applies only to C3; this claim holds
as stated): for a Session in the ACTIVE state, after an interruption
trigger — a provider `interruption` event or the local VAD transitioning
SILENT→SPEAKING — the dispatch queue has length exactly 0, exactly one
`clear` control message was sent to the telephony socket by the trigger,
and no frame that was queued before the trigger is ever sent to the
telephony socket afterwards (along any continuation whose provider audio
events carry frames other than that one). -/
theorem C1_interruption_clears (s : SessState) (e : SessEv)
    (_hws : s.hasWs = true) (_hconn : s.isConnected = true)
    (htrig : firesTrigger s e = true) :
    (sessStep s e).audioQueue = [] ∧
    clearCount (sessStep s e).twilioSent = clearCount s.twilioSent + 1 ∧
    (∀ f ∈ s.audioQueue, ∀ evs : List SessEv,
      (∀ g, SessEv.elAudio g ∈ evs → g ≠ f) →
      TwilioMsg.media f ∉
        (sessRun (sessStep s e) evs).twilioSent.drop (sessStep s e).twilioSent.length) := by
  have hstate : (sessStep s e).audioQueue = [] ∧
      (sessStep s e).twilioSent = s.twilioSent ++ [TwilioMsg.clear] := by
    cases e with
    | elAudio f => simp [firesTrigger] at htrig
    | elInterrupt => exact ⟨rfl, rfl⟩
    | twMedia now pcm => exact trigger_step_state s now pcm htrig
    | drain => simp [firesTrigger] at htrig
  refine ⟨hstate.1, ?_, ?_⟩
  · rw [hstate.2, clearCount_append]; rfl
  · intro f _ evs he
    have hsafe : SafeFor f (sessStep s e).twilioSent.length (sessStep s e) := by
      refine ⟨by simp [hstate.1], by simp, le_refl _⟩
    exact ((hsafe.run_safe evs he).2.1)

theorem C1_interruption_clears_witness :
    TwilioMsg.media 5 ∉
      (sessRun (sessStep { activeInit with audioQueue := [5] } SessEv.elInterrupt)
          [SessEv.elAudio 6, SessEv.drain]).twilioSent.drop
        (sessStep { activeInit with audioQueue := [5] } SessEv.elInterrupt).twilioSent.length :=
  (C1_interruption_clears { activeInit with audioQueue := [5] } SessEv.elInterrupt
      rfl rfl rfl).2.2 5 (by decide) [SessEv.elAudio 6, SessEv.drain]
    (by intro g hg; simp at hg; omega)

/-- **C3 counterexample**: the claim that a second invocation of
`processAudioQueue` never enters the dequeue-and-send loop while a drain
is still pending is false.  Concretely: a provider `audio` event starts
a drain which suspends at its pacing `await` (`pendingDrains = 1`); a
provider `interruption` event then resets `isProcessingAudio` while that
drain is still suspended; the next `audio` event passes the guard and
enters the loop, leaving two drain activations pending at once. -/
theorem C3_second_drain_counterexample :
    (sessRun activeInit [SessEv.elAudio 0, SessEv.elInterrupt]).pendingDrains = 1 ∧
    (sessRun activeInit [SessEv.elAudio 0, SessEv.elInterrupt]).isProcessingAudio = false ∧
    (sessRun activeInit
      [SessEv.elAudio 0, SessEv.elInterrupt, SessEv.elAudio 1]).pendingDrains = 2 := by
  decide

/-- The drain-exclusion invariant: at most one drain activation is
pending, and `isProcessingAudio` is set exactly while one is. -/
def DrainInv (st : SessState) : Prop :=
  st.pendingDrains ≤ 1 ∧ (st.isProcessingAudio = true ↔ st.pendingDrains = 1)

theorem DrainInv.step_drain {st : SessState} (h : DrainInv st) (e : SessEv)
    (hcalm : firesTrigger st e = false) : DrainInv (sessStep st e) := by
  obtain ⟨hle, hiff⟩ := h
  cases e with
  | elAudio f =>
    simp only [sessStep, handleElAudio]
    by_cases hp : st.isProcessingAudio
    · constructor <;> simp [hp, hle, hiff.1 hp]
    · have hz : st.pendingDrains = 0 := by
        rcases Nat.lt_or_ge st.pendingDrains 1 with h1 | h1
        · omega
        · exact absurd (hiff.2 (by omega)) hp
      cases hq : st.audioQueue with
      | nil => constructor <;> simp [hp, hq, hz]
      | cons a tl => constructor <;> simp [hp, hq, hz]
  | elInterrupt => simp [firesTrigger] at hcalm
  | twMedia now pcm =>
    simp only [sessStep, handleTwMedia]
    by_cases hcon : st.hasWs = true ∧ st.isConnected = true
    · simp only [if_pos hcon]
      by_cases hsp : detectSpeech pcm
      · have htr : ¬(st.isUserSpeaking = false ∧
            st.minSpeechFrames ≤ st.consecutiveSpeechFrames + 1) := by
          intro ⟨h1, h2⟩
          simp [firesTrigger, hcon.1, hcon.2, hsp, h1, h2] at hcalm
        constructor <;> simp [hsp, htr, hle, hiff]
      · by_cases hfl : st.isUserSpeaking = true ∧
            st.silenceThreshold ≤ st.consecutiveSilentChunks + 1
        · constructor <;> simp [hsp, hfl, hle, hiff]
        · constructor <;> simp [hsp, hfl, hle, hiff]
    · simp only [if_neg hcon]
      by_cases hnc : ¬st.isConnected = true
      · simp only [if_pos hnc]
        cases hw : st.lastConnectionWarning with
        | none => constructor <;> simp [hle, hiff]
        | some w =>
          by_cases ht : now - w > 1000
          · constructor <;> simp [ht, hle, hiff]
          · constructor <;> simp [ht, hle, hiff]
      · constructor <;> simp [hnc, hle, hiff]
  | drain =>
    simp only [sessStep, drainResume]
    by_cases hp : st.pendingDrains = 0
    · constructor <;> simp [hp, hle, hiff]
    · have h1 : st.pendingDrains = 1 := by omega
      cases hq : st.audioQueue with
      | nil => constructor <;> simp [hp, hq, h1]
      | cons a tl => constructor <;> simp [hp, hq, h1, hiff.2 h1]

theorem DrainInv.run_drain {st : SessState} (h : DrainInv st) (evs : List SessEv)
    (hc : calmTrace st evs = true) : DrainInv (sessRun st evs) := by
  induction evs generalizing st with
  | nil => exact h
  | cons e r ih =>
    simp only [calmTrace, Bool.and_eq_true, Bool.not_eq_true'] at hc
    rw [sessRun_cons]
    exact ih (h.step_drain e hc.1) hc.2

/-- **C3 amended**: in any reachable interleaving of provider `audio`
events, telephony `media` events and drain resumptions that contains no
interruption trigger (no provider `interruption` event and no VAD
SILENT→SPEAKING transition), at most one drain activation is pending at
any time, and `isProcessingAudio` is set exactly while one is — so a
second invocation of `processAudioQueue` is stopped at its guard.  The
original claim fails because an interruption trigger resets
`isProcessingAudio` while a drain is still suspended at its pacing
`await` (see the counterexample). -/
theorem C3_amended_single_drain (evs : List SessEv)
    (hc : calmTrace activeInit evs = true) :
    (sessRun activeInit evs).pendingDrains ≤ 1 ∧
    ((sessRun activeInit evs).isProcessingAudio = true ↔
      (sessRun activeInit evs).pendingDrains = 1) :=
  DrainInv.run_drain (by constructor <;> simp [activeInit]) evs hc

theorem C3_amended_single_drain_witness :
    (sessRun activeInit [SessEv.elAudio 0, SessEv.drain, SessEv.elAudio 1]).pendingDrains ≤ 1 :=
  (C3_amended_single_drain [SessEv.elAudio 0, SessEv.drain, SessEv.elAudio 1] (by decide)).1

/-! ### The four `media`-branch step shapes of `handleMessage` -/

theorem twMedia_speech_below (s : SessState) (now : Nat) (pcm : List Int)
    (hws : s.hasWs = true) (hc : s.isConnected = true)
    (hsp : detectSpeech pcm = true)
    (hlow : ¬(s.isUserSpeaking = false ∧
      s.minSpeechFrames ≤ s.consecutiveSpeechFrames + 1)) :
    sessStep s (SessEv.twMedia now pcm) =
      { s with consecutiveSilentChunks := 0,
               consecutiveSpeechFrames := s.consecutiveSpeechFrames + 1,
               elSent := s.elSent ++ [ProviderMsg.userAudioChunk pcm] } := by
  simp [sessStep, handleTwMedia, hws, hc, hsp, hlow]

theorem twMedia_speech_trigger (s : SessState) (now : Nat) (pcm : List Int)
    (hws : s.hasWs = true) (hc : s.isConnected = true)
    (hsp : detectSpeech pcm = true)
    (htr : s.isUserSpeaking = false ∧
      s.minSpeechFrames ≤ s.consecutiveSpeechFrames + 1) :
    sessStep s (SessEv.twMedia now pcm) =
      { s with isUserSpeaking := true, speechStartTime := now,
               consecutiveSilentChunks := 0,
               consecutiveSpeechFrames := s.consecutiveSpeechFrames + 1,
               audioQueue := [], isProcessingAudio := false,
               twilioSent := s.twilioSent ++ [TwilioMsg.clear],
               elSent := s.elSent ++
                 [ProviderMsg.userActivity, ProviderMsg.userAudioChunk pcm] } := by
  simp [sessStep, handleTwMedia, hws, hc, hsp, htr]

theorem twMedia_silence_below (s : SessState) (now : Nat) (pcm : List Int)
    (hws : s.hasWs = true) (hc : s.isConnected = true)
    (hsp : detectSpeech pcm = false)
    (hlow : ¬(s.isUserSpeaking = true ∧
      s.silenceThreshold ≤ s.consecutiveSilentChunks + 1)) :
    sessStep s (SessEv.twMedia now pcm) =
      { s with consecutiveSilentChunks := s.consecutiveSilentChunks + 1,
               consecutiveSpeechFrames := 0,
               elSent := s.elSent ++ [ProviderMsg.userAudioChunk pcm] } := by
  simp [sessStep, handleTwMedia, hws, hc, hsp, hlow]

theorem twMedia_silence_flip (s : SessState) (now : Nat) (pcm : List Int)
    (hws : s.hasWs = true) (hc : s.isConnected = true)
    (hsp : detectSpeech pcm = false)
    (hfl : s.isUserSpeaking = true ∧
      s.silenceThreshold ≤ s.consecutiveSilentChunks + 1) :
    sessStep s (SessEv.twMedia now pcm) =
      { s with isUserSpeaking := false,
               consecutiveSilentChunks := s.consecutiveSilentChunks + 1,
               consecutiveSpeechFrames := 0,
               elSent := s.elSent ++ [ProviderMsg.userAudioChunk pcm] } := by
  simp [sessStep, handleTwMedia, hws, hc, hsp, hfl]

/-- A run of speech-like frames strictly shorter than the remaining
hysteresis budget advances the speech counter without waking `speaking`. -/
theorem vad_speech_run (frames : List (List Int)) :
    ∀ s : SessState, s.hasWs = true → s.isConnected = true →
      s.isUserSpeaking = false →
      (∀ p ∈ frames, detectSpeech p = true) →
      s.consecutiveSpeechFrames + frames.length < s.minSpeechFrames →
      (sessRun s (frames.map (SessEv.twMedia 0))).isUserSpeaking = false ∧
      (sessRun s (frames.map (SessEv.twMedia 0))).consecutiveSpeechFrames
          = s.consecutiveSpeechFrames + frames.length ∧
      (sessRun s (frames.map (SessEv.twMedia 0))).hasWs = true ∧
      (sessRun s (frames.map (SessEv.twMedia 0))).isConnected = true ∧
      (sessRun s (frames.map (SessEv.twMedia 0))).minSpeechFrames = s.minSpeechFrames := by
  induction frames with
  | nil => intro s h1 h2 h3 _ _; exact ⟨h3, rfl, h1, h2, rfl⟩
  | cons p rest ih =>
    intro s h1 h2 h3 hall hlen
    have hsp : detectSpeech p = true := hall p (by simp)
    have hlow : ¬(s.isUserSpeaking = false ∧
        s.minSpeechFrames ≤ s.consecutiveSpeechFrames + 1) := by
      intro ⟨_, hh⟩
      simp only [List.length_cons] at hlen
      omega
    rw [List.map_cons, sessRun_cons, twMedia_speech_below s 0 p h1 h2 hsp hlow]
    obtain ⟨c1, c2, c3, c4, c5⟩ :=
      ih { s with consecutiveSilentChunks := 0,
                  consecutiveSpeechFrames := s.consecutiveSpeechFrames + 1,
                  elSent := s.elSent ++ [ProviderMsg.userAudioChunk p] }
        h1 h2 h3 (fun q hq => hall q (by simp [hq]))
        (by show s.consecutiveSpeechFrames + 1 + rest.length < s.minSpeechFrames
            simp only [List.length_cons] at hlen
            omega)
    refine ⟨c1, ?_, c3, c4, by rw [c5]⟩
    rw [c2]; simp only [List.length_cons]; omega

/-- A run of silence-like frames strictly shorter than the remaining
silence budget advances the silence counter while `speaking` stays set. -/
theorem vad_silence_run (sils : List (List Int)) :
    ∀ s : SessState, s.hasWs = true → s.isConnected = true →
      s.isUserSpeaking = true →
      (∀ p ∈ sils, detectSpeech p = false) →
      s.consecutiveSilentChunks + sils.length < s.silenceThreshold →
      (sessRun s (sils.map (SessEv.twMedia 0))).isUserSpeaking = true ∧
      (sessRun s (sils.map (SessEv.twMedia 0))).consecutiveSilentChunks
          = s.consecutiveSilentChunks + sils.length ∧
      (sessRun s (sils.map (SessEv.twMedia 0))).hasWs = true ∧
      (sessRun s (sils.map (SessEv.twMedia 0))).isConnected = true ∧
      (sessRun s (sils.map (SessEv.twMedia 0))).silenceThreshold = s.silenceThreshold := by
  induction sils with
  | nil => intro s h1 h2 h3 _ _; exact ⟨h3, rfl, h1, h2, rfl⟩
  | cons p rest ih =>
    intro s h1 h2 h3 hall hlen
    have hsp : detectSpeech p = false := hall p (by simp)
    have hlow : ¬(s.isUserSpeaking = true ∧
        s.silenceThreshold ≤ s.consecutiveSilentChunks + 1) := by
      intro ⟨_, hh⟩
      simp only [List.length_cons] at hlen
      omega
    rw [List.map_cons, sessRun_cons, twMedia_silence_below s 0 p h1 h2 hsp hlow]
    obtain ⟨c1, c2, c3, c4, c5⟩ :=
      ih { s with consecutiveSilentChunks := s.consecutiveSilentChunks + 1,
                  consecutiveSpeechFrames := 0,
                  elSent := s.elSent ++ [ProviderMsg.userAudioChunk p] }
        h1 h2 h3 (fun q hq => hall q (by simp [hq]))
        (by show s.consecutiveSilentChunks + 1 + rest.length < s.silenceThreshold
            simp only [List.length_cons] at hlen
            omega)
    refine ⟨c1, ?_, c3, c4, by rw [c5]⟩
    rw [c2]; simp only [List.length_cons]; omega

/-- **C4**: starting from `speaking = false` with zero counters, any
`minSpeechFrames − 1` consecutive speech-like frames leave `speaking`
false and the next consecutive speech-like frame makes it true; and
while `speaking` is true (at the start of a silence run), it stays true
through any run of fewer than `silenceThreshold` consecutive
non-speech-like frames and becomes false exactly when the run reaches
`silenceThreshold`.  A frame is speech-like iff `detectSpeech` holds:
its RMS exceeds the RMS threshold or its peak exceeds the peak threshold. -/
theorem C4_vad_hysteresis :
    (∀ (s : SessState) (frames : List (List Int)) (f : List Int),
      s.hasWs = true → s.isConnected = true →
      s.isUserSpeaking = false → s.consecutiveSpeechFrames = 0 →
      0 < s.minSpeechFrames →
      frames.length = s.minSpeechFrames - 1 →
      (∀ p ∈ frames, detectSpeech p = true) →
      detectSpeech f = true →
      (sessRun s (frames.map (SessEv.twMedia 0))).isUserSpeaking = false ∧
      (sessRun s ((frames ++ [f]).map (SessEv.twMedia 0))).isUserSpeaking = true) ∧
    (∀ (s : SessState) (sils : List (List Int)),
      s.hasWs = true → s.isConnected = true →
      s.isUserSpeaking = true → s.consecutiveSilentChunks = 0 →
      0 < s.silenceThreshold →
      (∀ p ∈ sils, detectSpeech p = false) →
      ((sils.length < s.silenceThreshold →
          (sessRun s (sils.map (SessEv.twMedia 0))).isUserSpeaking = true) ∧
        (sils.length = s.silenceThreshold →
          (sessRun s (sils.map (SessEv.twMedia 0))).isUserSpeaking = false))) := by
  constructor
  · intro s frames f h1 h2 h3 h4 hm hlen hall hf
    have hbound : s.consecutiveSpeechFrames + frames.length < s.minSpeechFrames := by
      rw [h4, hlen]; omega
    obtain ⟨c1, c2, c3, c4, c5⟩ := vad_speech_run frames s h1 h2 h3 hall hbound
    refine ⟨c1, ?_⟩
    rw [List.map_append, List.map_singleton]
    have hrun : sessRun s (frames.map (SessEv.twMedia 0) ++ [SessEv.twMedia 0 f]) =
        sessStep (sessRun s (frames.map (SessEv.twMedia 0))) (SessEv.twMedia 0 f) := by
      simp [sessRun, List.foldl_append]
    rw [hrun, twMedia_speech_trigger _ 0 f c3 c4 hf ⟨c1, by rw [c5, c2, h4, hlen]; omega⟩]
  · intro s sils h1 h2 h3 h4 ht hall
    constructor
    · intro hlt
      exact (vad_silence_run sils s h1 h2 h3 hall (by rw [h4]; omega)).1
    · intro heq
      rcases List.eq_nil_or_concat sils with hnil | ⟨L, b, hcat⟩
      · rw [hnil] at heq; simp at heq; omega
      · subst hcat
        simp only [List.concat_eq_append] at hall heq ⊢
        have hLlen : L.length + 1 = s.silenceThreshold := by
          simpa using heq
        obtain ⟨c1, c2, c3, c4, c5⟩ := vad_silence_run L s h1 h2 h3
          (fun q hq => hall q (by simp [hq])) (by rw [h4]; omega)
        rw [List.map_append, List.map_singleton]
        have hrun : sessRun s (L.map (SessEv.twMedia 0) ++ [SessEv.twMedia 0 b]) =
            sessStep (sessRun s (L.map (SessEv.twMedia 0))) (SessEv.twMedia 0 b) := by
          simp [sessRun, List.foldl_append]
        rw [hrun, twMedia_silence_flip _ 0 b c3 c4
          (hall b (by simp)) ⟨c1, by rw [c5, c2, h4]; omega⟩]

theorem C4_vad_hysteresis_witness :
    (sessRun activeInit
        ((List.replicate 7 ([4000] : List Int)).map (SessEv.twMedia 0))).isUserSpeaking
      = false ∧
    (sessRun activeInit
        ((List.replicate 7 ([4000] : List Int) ++ [[4000]]).map
          (SessEv.twMedia 0))).isUserSpeaking = true :=
  C4_vad_hysteresis.1 activeInit (List.replicate 7 [4000]) [4000]
    rfl rfl rfl rfl (by decide) (by decide) (by decide) (by decide)

/-- **C10**: a telephony `media` frame arriving while the provider
socket is absent or not yet connected is discarded: nothing is sent on
either socket, nothing is queued, the VAD counters are untouched, and
every Session field except the log-throttle timestamp
`lastConnectionWarning` is unchanged — so the frame is never forwarded
later and subsequent events are processed exactly as if it had never
arrived. -/
theorem C10_media_dropped_when_disconnected (s : SessState) (now : Nat) (pcm : List Int)
    (h : ¬(s.hasWs = true ∧ s.isConnected = true)) :
    (sessStep s (SessEv.twMedia now pcm)).audioQueue = s.audioQueue ∧
    (sessStep s (SessEv.twMedia now pcm)).elSent = s.elSent ∧
    (sessStep s (SessEv.twMedia now pcm)).twilioSent = s.twilioSent ∧
    (sessStep s (SessEv.twMedia now pcm)).isUserSpeaking = s.isUserSpeaking ∧
    (sessStep s (SessEv.twMedia now pcm)).consecutiveSilentChunks
        = s.consecutiveSilentChunks ∧
    (sessStep s (SessEv.twMedia now pcm)).consecutiveSpeechFrames
        = s.consecutiveSpeechFrames ∧
    (sessStep s (SessEv.twMedia now pcm)).isProcessingAudio = s.isProcessingAudio ∧
    (sessStep s (SessEv.twMedia now pcm)).pendingDrains = s.pendingDrains ∧
    (sessStep s (SessEv.twMedia now pcm)).speechStartTime = s.speechStartTime ∧
    (sessStep s (SessEv.twMedia now pcm)).hasWs = s.hasWs ∧
    (sessStep s (SessEv.twMedia now pcm)).isConnected = s.isConnected ∧
    (sessStep s (SessEv.twMedia now pcm)).minSpeechFrames = s.minSpeechFrames ∧
    (sessStep s (SessEv.twMedia now pcm)).silenceThreshold = s.silenceThreshold := by
  simp only [sessStep, handleTwMedia, if_neg h]
  by_cases hnc : ¬s.isConnected = true
  · simp only [if_pos hnc]
    cases hw : s.lastConnectionWarning with
    | none => simp
    | some w => by_cases ht : now - w > 1000 <;> simp [ht]
  · simp [hnc]

theorem C10_media_dropped_witness :
    (sessStep { activeInit with hasWs := false } (SessEv.twMedia 0 [9000])).elSent
        = ({ activeInit with hasWs := false } : SessState).elSent ∧
    (sessStep { activeInit with hasWs := false } (SessEv.twMedia 0 [9000])).audioQueue
        = ({ activeInit with hasWs := false } : SessState).audioQueue :=
  ⟨(C10_media_dropped_when_disconnected _ 0 [9000] (by decide)).2.1,
   (C10_media_dropped_when_disconnected { activeInit with hasWs := false } 0 [9000]
      (by decide)).1⟩

/-- **C9** (code bug): the μ-law round trip violates the claimed
quantization error bound.  `decode(encode(0)) = -33`, although the bound
for the lowest magnitude segment is half its step size, 4, with no
clipping loss at 0; at positive full scale `decode(encode(32767)) =
32091`, an error of 676 exceeding the bound 512 + 132 = 644 (half the
top-segment step plus the clipping loss).  Cause: `mulawToLinear`
subtracts `MULAW_BIAS = 33` on top of an `exp_lut` that already folds in
the encoder bias 132, so every decoded magnitude is offset by −33. -/
theorem C9_roundtrip_bias_bug :
    mulawToLinear (linearToMulaw 0) = -33 ∧
    ¬((mulawToLinear (linearToMulaw 0) - 0).natAbs ≤ 4) ∧
    mulawToLinear (linearToMulaw 32767) = 32091 ∧
    ¬((mulawToLinear (linearToMulaw 32767) - 32767).natAbs ≤ 644) := by
  decide

/-! ## Initiation payload (src/unnamed/part_005, lines 98-225)

`initializeElevenLabsConnection` builds the
`conversation_initiation_client_data` message in the socket's `open`
handler.  `Date` values are abstracted by their rendered en-GB text
(`move_in_date`, `availability_at` carry the formatted string when
present); decimal amounts are abstracted as `Nat` (the source renders
them with `toFixed(0)` or direct interpolation). -/

/-- JS truthiness of an optional string (undefined/null and `''` are falsy). -/
def truthyStr : Option String → Bool
  | none => false
  | some s => decide (s ≠ "")

/-- JS truthiness of an optional number (undefined/null and `0` are falsy). -/
def truthyNat : Option Nat → Bool
  | none => false
  | some n => decide (n ≠ 0)

/-- `sanitizeVariable` on an optional string: null/undefined become `''`,
anything else is passed through `String(...)`. -/
def sanitizeStr : Option String → String
  | none => ""
  | some s => s

/-- The `Lead` fields read by the session (src/src/database/models/Lead.ts). -/
structure Lead where
  id : Nat
  phone_number : String
  name : Option String
  move_in_date : Option String
  budget : Option Nat
  yearly_wage : Option Nat
  occupation : Option String
  contract_length : Option String
  email : Option String
  preferred_time : Option String
  property_type : Option String
  area : Option String
  address_line_1 : Option String
  postcode : Option String
  bedroom_count : Option Nat
  availability_at : Option String
  property_cost : Option Nat
  completeness_level : String
deriving DecidableEq, Repr

/-- The `existingData` record of `generateConversationStrategy`
(src/src/services/lead.service.ts): formatted strings or null. -/
structure ExistingData where
  name : Option String
  moveInDate : Option String
  budget : Option String
  yearlyWage : Option String
  occupation : Option String
  contractLength : Option String
deriving DecidableEq, Repr

/-- The conversation strategy consumed by the session. -/
structure ConversationStrategy where
  completenessLevel : String
  missingFields : List String
  existingData : ExistingData
deriving DecidableEq, Repr

/-- `buildLeadContext` (part_005, lines 602-666): the plain-text
fallback context; empty when the lead or the strategy is missing. -/
def buildLeadContext (lead : Option Lead) (strategy : Option ConversationStrategy) : String :=
  match lead, strategy with
  | some l, some st =>
    let ed := st.existingData
    let context := "LEAD CONTEXT:\nLead ID: " ++ toString l.id ++
      "\nCompleteness: " ++ st.completenessLevel ++
      "\nPhone Number: " ++ l.phone_number ++ "\n\n"
    let context := if truthyStr ed.name then
      context ++ "Name: " ++ sanitizeStr ed.name ++ "\n" else context
    let context := if truthyStr ed.moveInDate then
      context ++ "Move-in Date: " ++ sanitizeStr ed.moveInDate ++ "\n" else context
    let context := if truthyStr ed.budget then
      context ++ "Budget: " ++ sanitizeStr ed.budget ++ " monthly\n" else context
    let context := if truthyStr ed.yearlyWage then
      context ++ "Annual Income: " ++ sanitizeStr ed.yearlyWage ++ "\n" else context
    let context := if truthyStr ed.occupation then
      context ++ "Occupation: " ++ sanitizeStr ed.occupation ++ "\n" else context
    let context := if truthyStr ed.contractLength then
      context ++ "Contract Length: " ++ sanitizeStr ed.contractLength ++ "\n" else context
    let context :=
      if truthyStr l.address_line_1 || truthyStr l.postcode ||
          truthyNat l.bedroom_count || truthyNat l.property_cost then
        let c := context ++ "\nPROPERTY DETAILS:\n"
        let c := if truthyStr l.address_line_1 then
          c ++ "Address: " ++ sanitizeStr l.address_line_1 ++ "\n" else c
        let c := if truthyStr l.postcode then
          c ++ "Postcode: " ++ sanitizeStr l.postcode ++ "\n" else c
        let c := if truthyNat l.bedroom_count then
          c ++ "Bedrooms: " ++ toString (l.bedroom_count.getD 0) ++ "\n" else c
        let c := if truthyStr l.availability_at then
          c ++ "Available From: " ++ sanitizeStr l.availability_at ++ "\n" else c
        let c := if truthyNat l.property_cost then
          c ++ "Monthly Rent: £" ++ toString (l.property_cost.getD 0) ++ "\n" else c
        c
      else context
    let context := if st.missingFields.length > 0 then
      context ++ "\nMISSING REQUIRED FIELDS: " ++
        String.intercalate ", " st.missingFields ++ "\n"
      else context
    let context := context ++
      "\nCONVERSATION STRATEGY:\n    \nIMPORTANT: After your initial greeting and request to confirm details, WAIT for the person to give permission before proceeding. If they say yes, proceed with confirming details. If they\x27re busy, offer to call back later.\n\nVIEWING HOURS: Viewings can ONLY be booked between 9:00 AM and 5:00 PM on weekdays (Monday-Friday). Do not offer or accept viewing times outside these hours.\n\n"
    if st.completenessLevel = "COMPLETE" then
      context ++ "- This lead has all required information\n- Once they agree to proceed, quickly confirm their details: move-in date, budget, area\n- Then immediately offer viewing times\n- Be efficient and professional"
    else if st.completenessLevel = "PARTIAL" then
      context ++ "- This lead has some information\n- Once they agree to proceed, confirm existing data first\n- Then collect missing fields: " ++
        String.intercalate ", " st.missingFields ++
        "\n- Ask for missing data strategically before booking"
    else
      context ++ "- This lead has minimal information\n- Once they agree to proceed, use standard qualification flow\n- Collect all required fields systematically\n- Essential: move-in date, budget, area, occupation"
  | _, _ => ""

/-- A `dynamic_variables` value: the source mixes string values with raw
booleans (`if_lead_name`, `if`, `else`). -/
inductive DynValue
  | str (s : String)
  | boolean (b : Bool)
deriving DecidableEq, Repr

/-- The `dynamic_variables` mapping built when a lead is present
(part_005, lines 147-199), in source order. -/
def buildDynamicVariables (l : Lead) (strategy : Option ConversationStrategy) :
    List (String × DynValue) :=
  let conversationContext := buildLeadContext (some l) strategy
  let missingFields := match strategy with
    | some st => st.missingFields
    | none => []
  let formattedMoveInDate := match l.move_in_date with
    | some d => d
    | none => ""
  let custom_greeting :=
    if truthyStr l.name then "Hi " ++ sanitizeStr l.name ++ "!" else "Hello!"
  let custom_intro := "I\x27m Charlie calling from Lobby about the property you enquired about. Do you have a moment so I can confirm your details and help you book a viewing?"
  [("custom_greeting", DynValue.str custom_greeting),
   ("custom_intro", DynValue.str custom_intro),
   ("lead_id", DynValue.str (toString l.id)),
   ("lead_name", DynValue.str (sanitizeStr l.name)),
   ("lead_phone", DynValue.str l.phone_number),
   ("lead_move_in_date", DynValue.str formattedMoveInDate),
   ("lead_budget", DynValue.str
     (if truthyNat l.budget then "£" ++ toString (l.budget.getD 0) else "")),
   ("lead_yearly_wage", DynValue.str
     (if truthyNat l.yearly_wage then "£" ++ toString (l.yearly_wage.getD 0) else "")),
   ("lead_occupation", DynValue.str (sanitizeStr l.occupation)),
   ("lead_contract_length", DynValue.str
     (if truthyStr l.contract_length then sanitizeStr l.contract_length ++ " months" else "")),
   ("lead_completeness", DynValue.str l.completeness_level),
   ("lead_email", DynValue.str (sanitizeStr l.email)),
   ("lead_property_type", DynValue.str (sanitizeStr l.property_type)),
   ("lead_area", DynValue.str (sanitizeStr l.area)),
   ("lead_preferred_time", DynValue.str (sanitizeStr l.preferred_time)),
   ("missing_fields", DynValue.str
     (let j := String.intercalate ", " missingFields
      if j = "" then "none" else j)),
   ("has_missing_fields", DynValue.str (if missingFields.length > 0 then "yes" else "no")),
   ("property_address", DynValue.str (sanitizeStr l.address_line_1)),
   ("property_postcode", DynValue.str (sanitizeStr l.postcode)),
   ("property_bedrooms", DynValue.str
     (if truthyNat l.bedroom_count then
        toString (l.bedroom_count.getD 0) ++ " bedroom" ++
          (if l.bedroom_count.getD 0 > 1 then "s" else "")
      else "")),
   ("property_available_from", DynValue.str
     (match l.availability_at with
      | some d => d
      | none => "")),
   ("property_monthly_cost", DynValue.str
     (if truthyNat l.property_cost then "£" ++ toString (l.property_cost.getD 0) else "")),
   ("lead_context", DynValue.str conversationContext),
   ("if_lead_name", DynValue.boolean (truthyStr l.name)),
   ("if", DynValue.boolean true),
   ("else", DynValue.boolean true),
   ("has_lead_name", DynValue.str (if truthyStr l.name then "true" else "false")),
   ("true", DynValue.str "true"),
   ("false", DynValue.str "false")]

/-- The initiation message: type tag and the optional mapping. -/
structure InitData where
  type : String
  dynamic_variables : Option (List (String × DynValue))
deriving DecidableEq, Repr

/-- `initializeElevenLabsConnection`'s payload construction: the
`dynamic_variables` mapping is attached only when a lead is present
(`if (this.lead) { ... initData.dynamic_variables = { ... } }`). -/
def buildInitData (lead : Option Lead) (strategy : Option ConversationStrategy) : InitData :=
  match lead with
  | none => { type := "conversation_initiation_client_data", dynamic_variables := none }
  | some l => { type := "conversation_initiation_client_data",
                dynamic_variables := some (buildDynamicVariables l strategy) }

/-- The named fields of claim C2: greeting, lead identity, budget,
move-in date, income, occupation, contract length, missing-field list,
and the property address/postcode/bedrooms/availability/monthly cost. -/
def namedFieldKeys : List String :=
  ["custom_greeting", "lead_id", "lead_name", "lead_phone",
   "lead_move_in_date", "lead_budget", "lead_yearly_wage",
   "lead_occupation", "lead_contract_length", "missing_fields",
   "property_address", "property_postcode", "property_bedrooms",
   "property_available_from", "property_monthly_cost"]

/-- Whether an optional mapping value is present and a string. -/
def isStrVal : Option DynValue → Bool
  | some (DynValue.str _) => true
  | _ => false

/-- A lead with every optional datum absent. -/
def emptyLead : Lead :=
  { id := 1, phone_number := "+440000000000", name := none, move_in_date := none,
    budget := none, yearly_wage := none, occupation := none, contract_length := none,
    email := none, preferred_time := none, property_type := none, area := none,
    address_line_1 := none, postcode := none, bedroom_count := none,
    availability_at := none, property_cost := none, completeness_level := "MINIMAL" }

/-- **C2 counterexample**: a Session with no LeadContext sends the
initiation message with *no* `dynamic_variables` mapping at all (the
mapping is only built inside `if (this.lead)`), and even with a lead the
missing-field list defaults to the string `"none"`, not the empty
string. -/
theorem C2_counterexample :
    (buildInitData none none).dynamic_variables = none ∧
    (buildDynamicVariables emptyLead
        (some { completenessLevel := "MINIMAL", missingFields := [],
                existingData := { name := none, moveInDate := none, budget := none,
                                  yearlyWage := none, occupation := none,
                                  contractLength := none } })).lookup "missing_fields"
      = some (DynValue.str "none") := by
  exact ⟨rfl, rfl⟩

/-- **C2 amended**: when a LeadContext is present, the
`conversation_initiation_client_data` payload carries a
`dynamic_variables` mapping in which every named field is present with a
string value — defaulted to the empty string when the datum is absent,
except the missing-field list which defaults to `"none"`; when no
LeadContext is present, the payload carries no `dynamic_variables`
mapping at all. -/
theorem C2_amended_dynamic_variables :
    (∀ (l : Lead) (strategy : Option ConversationStrategy) (k : String),
      k ∈ namedFieldKeys →
      isStrVal ((buildDynamicVariables l strategy).lookup k) = true) ∧
    (∀ strategy, (buildInitData none strategy).dynamic_variables = none) ∧
    (∀ l strategy, (buildInitData (some l) strategy).dynamic_variables
        = some (buildDynamicVariables l strategy)) ∧
    ((buildDynamicVariables emptyLead none).lookup "lead_budget"
        = some (DynValue.str "") ∧
      (buildDynamicVariables emptyLead none).lookup "lead_name"
        = some (DynValue.str "") ∧
      (buildDynamicVariables emptyLead none).lookup "lead_move_in_date"
        = some (DynValue.str "") ∧
      (buildDynamicVariables emptyLead none).lookup "missing_fields"
        = some (DynValue.str "none")) := by
  refine ⟨?_, fun _ => rfl, fun _ _ => rfl, rfl, rfl, rfl, rfl⟩
  intro l strategy k hk
  simp only [namedFieldKeys, List.mem_cons, List.not_mem_nil, or_false] at hk
  rcases hk with rfl | rfl | rfl | rfl | rfl | rfl | rfl | rfl | rfl | rfl | rfl | rfl |
    rfl | rfl | rfl <;> rfl

theorem C2_amended_dynamic_variables_witness :
    isStrVal ((buildDynamicVariables emptyLead none).lookup "custom_greeting") = true :=
  C2_amended_dynamic_variables.1 emptyLead none "custom_greeting" (by decide)

/-! ## Connection Pool (src/unnamed/part_003)

The pool runs on the same single-threaded event loop.  Sockets are
identified by `Nat` ids (object identity in the source); the observable
socket state is `connecting`/`opened`/`closed`, and `initSent` records
whether `conversation_initiation_client_data` was sent on the socket
(done in `createHotConnection`'s `open` handler, and nowhere in
`createNewConnection`).  The slow path of `getOrCreateConnection`
returns a promise that settles only in the socket's `open` or `error`
handlers; pending promises are the `pendingSlow` entries and settled
ones are logged in `slowResolved` (`some sock` for a resolution with
the socket, `none` for a `null` resolution). -/

inductive WsState
  | connecting
  | opened
  | closed
deriving DecidableEq, Repr

/-- A `PooledConnection` together with its socket's observable state. -/
structure PoolConn where
  sock : Nat
  createdAt : Nat
  callSid : Option String
  isReady : Bool
  lastUsed : Nat
  ws : WsState
  initSent : Bool
deriving DecidableEq, Repr

/-- The pool state: the assigned map `connections` (keyed by call sid),
the hot list, pending and settled slow-path promises, a fresh socket
counter and the clock. -/
structure PoolState where
  connections : List (String × PoolConn)
  hotConnections : List PoolConn
  pendingSlow : List (String × Nat)
  slowResolved : List (String × Option Nat)
  nextSock : Nat
  now : Nat
deriving DecidableEq, Repr

def HOT_POOL_SIZE : Nat := 3
def MAX_IDLE_TIME : Nat := 300000
def MAX_CONNECTION_AGE : Nat := 1800000

/-- `connections.get(k)`. -/
def mapGet (m : List (String × PoolConn)) (k : String) : Option PoolConn :=
  (m.find? (fun p => p.1 == k)).map Prod.snd

/-- `connections.set(k, v)`: replace the binding for `k` (the JS map
keeps insertion position on replacement; position is irrelevant to every
use in the source, so the binding is re-appended). -/
def mapSet (m : List (String × PoolConn)) (k : String) (v : PoolConn) :
    List (String × PoolConn) :=
  m.filter (fun p => p.1 != k) ++ [(k, v)]

/-- `connections.delete(k)`. -/
def mapDel (m : List (String × PoolConn)) (k : String) : List (String × PoolConn) :=
  m.filter (fun p => p.1 != k)

/-- The connection object pushed by `createHotConnection` before its
`open` event fires: not ready, unassigned, handshake not yet sent. -/
def freshHot (st : PoolState) : PoolConn :=
  { sock := st.nextSock, createdAt := st.now, callSid := none,
    isReady := false, lastUsed := st.now, ws := WsState.connecting, initSent := false }

/-- `createHotConnection`: with missing credentials it logs and returns
without creating anything; otherwise it creates the socket and pushes
the connection onto the hot list. -/
def createHotConnection (creds : Bool) (st : PoolState) : PoolState :=
  if creds then
    { st with hotConnections := st.hotConnections ++ [freshHot st],
              nextSock := st.nextSock + 1 }
  else st

/-- `n` calls of `createHotConnection` (the top-up loop of
`maintainHotPool`, and `preWarmHotPool` with `n = HOT_POOL_SIZE`). -/
def createHotConnections (creds : Bool) : Nat → PoolState → PoolState
  | 0, st => st
  | n + 1, st => createHotConnections creds n (createHotConnection creds st)

/-- `getHotConnection`: the first (oldest) hot connection that is ready,
open and unassigned, removed from the hot list (`filter(c => c !== connection)`;
object identity is rendered by the socket id, unique by the pool invariant). -/
def getHotConnection (st : PoolState) : Option PoolConn × PoolState :=
  match st.hotConnections.find? (fun c =>
      c.isReady && c.ws == WsState.opened && c.callSid == none) with
  | none => (none, st)
  | some c =>
    (some c, { st with hotConnections := st.hotConnections.filter (fun d => d.sock != c.sock) })

/-- What `getOrCreateConnection` hands back: a reused assigned socket, a
hot connection (tagged with the call sid), a pending slow-path promise
for a freshly created socket, or an immediate `null` for missing
credentials. -/
inductive AcquireRes
  | reused (sock : Nat)
  | hotHit (conn : PoolConn)
  | slowPending (sock : Nat)
  | noCreds
deriving DecidableEq, Repr

/-- The hot-then-slow fallback of `getOrCreateConnection`: take a hot
connection, tag it, store it in the map and warm one replacement; else
`createNewConnection`, which checks credentials and otherwise creates a
socket whose promise stays pending until `open` or `error`. -/
def acquireFallback (creds : Bool) (cs : String) (st : PoolState) :
    PoolState × AcquireRes :=
  match getHotConnection st with
  | (some h, st1) =>
    let h1 := { h with callSid := some cs, lastUsed := st1.now }
    let st2 := { st1 with connections := mapSet st1.connections cs h1 }
    (createHotConnection creds st2, AcquireRes.hotHit h1)
  | (none, st1) =>
    if creds then
      ({ st1 with pendingSlow := st1.pendingSlow ++ [(cs, st1.nextSock)],
                  nextSock := st1.nextSock + 1 },
        AcquireRes.slowPending st1.nextSock)
    else (st1, AcquireRes.noCreds)

/-- `getOrCreateConnection(callSid)`: reuse an existing open assignment,
else fall back to the hot pool, else the slow path. -/
def acquireStep (creds : Bool) (cs : String) (st : PoolState) :
    PoolState × AcquireRes :=
  match mapGet st.connections cs with
  | some ex =>
    if ex.ws = WsState.opened then
      ({ st with connections := mapSet st.connections cs { ex with lastUsed := st.now } },
        AcquireRes.reused ex.sock)
    else acquireFallback creds cs st
  | none => acquireFallback creds cs st

/-- A hot socket's `open` event: mark ready and send the initiation
handshake (`createHotConnection`'s `open` handler). -/
def hotOpenStep (st : PoolState) (sock : Nat) : PoolState :=
  { st with hotConnections := st.hotConnections.map (fun c =>
      if c.sock = sock ∧ c.ws = WsState.connecting then
        { c with ws := WsState.opened, isReady := true, initSent := true }
      else c) }

/-- A hot socket's `error` or `close` event: `removeHotConnection`. -/
def hotFailStep (st : PoolState) (sock : Nat) : PoolState :=
  { st with hotConnections := st.hotConnections.filter (fun c => c.sock != sock) }

/-- An assigned socket's close: its `readyState` stops being `OPEN`; the
map entry stays until cleanup or release. -/
def assignedCloseStep (st : PoolState) (cs : String) : PoolState :=
  { st with connections := st.connections.map (fun p =>
      if p.1 = cs then (p.1, { p.2 with ws := WsState.closed }) else p) }

/-- A slow-path socket's `open` event (`createNewConnection`): build the
connection (ready, assigned, **no handshake sent**), store it in the map
and resolve the promise with the socket. -/
def slowOpenStep (st : PoolState) (sock : Nat) : PoolState :=
  match st.pendingSlow.find? (fun p => p.2 == sock) with
  | none => st
  | some pr =>
    let conn : PoolConn :=
      { sock := sock, createdAt := st.now, callSid := some pr.1,
        isReady := true, lastUsed := st.now, ws := WsState.opened, initSent := false }
    { st with pendingSlow := st.pendingSlow.filter (fun p => p.2 != sock),
              connections := mapSet st.connections pr.1 conn,
              slowResolved := st.slowResolved ++ [(pr.1, some sock)] }

/-- A slow-path socket's `error` event: the promise resolves `null`. -/
def slowFailStep (st : PoolState) (sock : Nat) : PoolState :=
  match st.pendingSlow.find? (fun p => p.2 == sock) with
  | none => st
  | some pr =>
    { st with pendingSlow := st.pendingSlow.filter (fun p => p.2 != sock),
              slowResolved := st.slowResolved ++ [(pr.1, none)] }

/-- `releaseConnection(callSid)` (and `removeConnection`): close the
socket if present and delete the entry; idempotent. -/
def releaseStep (st : PoolState) (cs : String) : PoolState :=
  { st with connections := mapDel st.connections cs }

/-- `markAsActive(callSid)`: delete the entry without closing. -/
def markActiveStep (st : PoolState) (cs : String) : PoolState :=
  { st with connections := mapDel st.connections cs }

/-- `cleanupIdleConnections`: evict assigned connections that are stale,
old or dead, and hot connections that are old or dead. -/
def cleanupStep (st : PoolState) : PoolState :=
  { st with
    connections := st.connections.filter (fun p =>
      !(decide (st.now - p.2.lastUsed > MAX_IDLE_TIME) ||
        decide (st.now - p.2.createdAt > MAX_CONNECTION_AGE) ||
        (p.2.ws != WsState.opened))),
    hotConnections := st.hotConnections.filter (fun c =>
      !(decide (st.now - c.createdAt > MAX_CONNECTION_AGE) ||
        (c.ws != WsState.opened))) }

/-- One maintenance cycle (the 10 s interval handler):
`cleanupIdleConnections()` then `maintainHotPool()`, which counts the
ready open hot connections and warms the difference to the target. -/
def maintainStep (creds : Bool) (st : PoolState) : PoolState :=
  let st1 := cleanupStep st
  let active := st1.hotConnections.filter (fun c =>
    c.ws == WsState.opened && c.isReady)
  createHotConnections creds (HOT_POOL_SIZE - active.length) st1

/-- `preWarmHotPool`: warm `HOT_POOL_SIZE` connections. -/
def preWarm (creds : Bool) (st : PoolState) : PoolState :=
  createHotConnections creds HOT_POOL_SIZE st

/-- `refreshHotPool` (the 15 min interval handler): close every hot
connection, empty the list and pre-warm a fresh pool. -/
def refreshStep (creds : Bool) (st : PoolState) : PoolState :=
  preWarm creds { st with hotConnections := [] }

/-- Wall-clock advance. -/
def tickStep (st : PoolState) (dt : Nat) : PoolState :=
  { st with now := st.now + dt }

/-- The pool events of the claims: acquisitions, socket
open/close/error events on each tier, releases, maintenance and refresh
ticks, and time passing. -/
inductive PoolEv
  | acquire (cs : String)
  | hotOpen (sock : Nat)
  | hotFail (sock : Nat)
  | assignedClose (cs : String)
  | slowOpen (sock : Nat)
  | slowFail (sock : Nat)
  | release (cs : String)
  | markActive (cs : String)
  | maintain
  | refresh
  | tick (dt : Nat)
deriving DecidableEq, Repr

def poolStep (creds : Bool) (st : PoolState) : PoolEv → PoolState
  | PoolEv.acquire cs => (acquireStep creds cs st).1
  | PoolEv.hotOpen k => hotOpenStep st k
  | PoolEv.hotFail k => hotFailStep st k
  | PoolEv.assignedClose cs => assignedCloseStep st cs
  | PoolEv.slowOpen k => slowOpenStep st k
  | PoolEv.slowFail k => slowFailStep st k
  | PoolEv.release cs => releaseStep st cs
  | PoolEv.markActive cs => markActiveStep st cs
  | PoolEv.maintain => maintainStep creds st
  | PoolEv.refresh => refreshStep creds st
  | PoolEv.tick dt => tickStep st dt

def poolRun (creds : Bool) (st : PoolState) (evs : List PoolEv) : PoolState :=
  evs.foldl (poolStep creds) st

/-- The pool right after its constructor ran (`preWarmHotPool`; the
interval timers are the `maintain`/`refresh` events). -/
def poolInit (creds : Bool) : PoolState :=
  preWarm creds
    { connections := [], hotConnections := [], pendingSlow := [],
      slowResolved := [], nextSock := 0, now := 0 }

/-- Reachable pool states. -/
inductive PoolReach (creds : Bool) : PoolState → Prop
  | init : PoolReach creds (poolInit creds)
  | step (st : PoolState) (e : PoolEv) :
      PoolReach creds st → PoolReach creds (poolStep creds st e)

/-! ### Pool invariant -/

/-- The structural pool invariant: map keys are unique, socket ids are
unique within and across the three collections and below the freshness
counter, hot connections are unassigned, an open hot connection is
ready, and a ready hot connection has had the handshake sent. -/
structure CoreInv (st : PoolState) : Prop where
  keysNd : (st.connections.map Prod.fst).Nodup
  mapNd : (st.connections.map (fun p => p.2.sock)).Nodup
  hotNd : (st.hotConnections.map PoolConn.sock).Nodup
  pendNd : (st.pendingSlow.map Prod.snd).Nodup
  mh : ∀ p ∈ st.connections, ∀ c ∈ st.hotConnections, p.2.sock ≠ c.sock
  mp : ∀ p ∈ st.connections, ∀ q ∈ st.pendingSlow, p.2.sock ≠ q.2
  hp : ∀ c ∈ st.hotConnections, ∀ q ∈ st.pendingSlow, c.sock ≠ q.2
  mapB : ∀ p ∈ st.connections, p.2.sock < st.nextSock
  hotB : ∀ c ∈ st.hotConnections, c.sock < st.nextSock
  pendB : ∀ q ∈ st.pendingSlow, q.2 < st.nextSock
  hotUn : ∀ c ∈ st.hotConnections, c.callSid = none
  hotOR : ∀ c ∈ st.hotConnections, c.ws = WsState.opened → c.isReady = true
  hotRI : ∀ c ∈ st.hotConnections, c.isReady = true → c.initSent = true

/-- The full pool invariant: the structural one plus the hot-pool size
bound. -/
def PoolInv (st : PoolState) : Prop :=
  CoreInv st ∧ st.hotConnections.length ≤ HOT_POOL_SIZE

theorem mem_of_mem_filterKeys {m : List (String × PoolConn)} {k : String}
    {p : String × PoolConn} (h : p ∈ m.filter (fun q => q.1 != k)) :
    p ∈ m ∧ p.1 ≠ k := by
  have := List.mem_filter.1 h
  exact ⟨this.1, by simpa using this.2⟩

theorem keys_mapSet_nodup {m : List (String × PoolConn)} {k : String} {v : PoolConn}
    (h : (m.map Prod.fst).Nodup) : ((mapSet m k v).map Prod.fst).Nodup := by
  rw [mapSet, List.map_append]
  refine List.nodup_append.2 ⟨?_, by simp, ?_⟩
  · exact h.sublist ((List.filter_sublist m).map Prod.fst)
  · intro a ha
    simp only [List.mem_map] at ha
    obtain ⟨p, hp, rfl⟩ := ha
    simp only [List.map_cons, List.map_nil, List.mem_singleton]
    exact (mem_of_mem_filterKeys hp).2

theorem socks_mapSet {m : List (String × PoolConn)} {k : String} {v : PoolConn}
    (hnd : (m.map (fun p => p.2.sock)).Nodup)
    (hv : ∀ p ∈ m, p.1 ≠ k → p.2.sock ≠ v.sock) :
    ((mapSet m k v).map (fun p => p.2.sock)).Nodup := by
  rw [mapSet, List.map_append]
  refine List.nodup_append.2 ⟨?_, by simp, ?_⟩
  · exact hnd.sublist ((List.filter_sublist m).map _)
  · intro a ha
    simp only [List.mem_map] at ha
    obtain ⟨p, hp, rfl⟩ := ha
    obtain ⟨hpm, hpk⟩ := mem_of_mem_filterKeys hp
    simp only [List.map_cons, List.map_nil, List.mem_singleton]
    exact hv p hpm hpk

theorem mem_mapSet {m : List (String × PoolConn)} {k : String} {v : PoolConn}
    {p : String × PoolConn} (h : p ∈ mapSet m k v) :
    (p ∈ m ∧ p.1 ≠ k) ∨ p = (k, v) := by
  rw [mapSet] at h
  rcases List.mem_append.1 h with h1 | h1
  · exact Or.inl (mem_of_mem_filterKeys h1)
  · simp only [List.mem_singleton] at h1; exact Or.inr h1

theorem mapGet_entry {m : List (String × PoolConn)} {k : String} {v : PoolConn}
    (h : mapGet m k = some v) : (k, v) ∈ m := by
  rw [mapGet] at h
  cases hf : m.find? (fun p => p.1 == k) with
  | none => rw [hf] at h; simp at h
  | some e =>
    rw [hf] at h
    have he : e ∈ m := List.mem_of_find?_eq_some hf
    have hk : e.1 = k := by simpa using List.find?_some hf
    have hv : e.2 = v := by simpa using h
    have hkv : e = (k, v) := by rw [← hk, ← hv]
    rwa [hkv] at he

theorem CoreInv.createHot {st : PoolState} (h : CoreInv st) (creds : Bool) :
    CoreInv (createHotConnection creds st) := by
  cases creds with
  | false => simpa [createHotConnection] using h
  | true =>
    obtain ⟨k1, k2, k3, k4, k5, k6, k7, k8, k9, k10, k11, k12, k13⟩ := h
    simp only [createHotConnection, if_pos]
    refine ⟨k1, k2, ?_, k4, ?_, k6, ?_, ?_, ?_, ?_, ?_, ?_, ?_⟩
    · rw [List.map_append]
      refine List.nodup_append.2 ⟨k3, by simp, ?_⟩
      intro a ha
      simp only [List.mem_map] at ha
      obtain ⟨c, hc, rfl⟩ := ha
      simp only [List.map_cons, List.map_nil, List.mem_singleton, freshHot]
      exact Nat.ne_of_lt (k9 c hc)
    · intro p hp c hc
      rcases List.mem_append.1 hc with h1 | h1
      · exact k5 p hp c h1
      · simp only [List.mem_singleton] at h1
        subst h1
        exact Nat.ne_of_lt (k8 p hp)
    · intro c hc q hq
      rcases List.mem_append.1 hc with h1 | h1
      · exact k7 c h1 q hq
      · simp only [List.mem_singleton] at h1
        subst h1
        exact (Nat.ne_of_lt (k10 q hq)).symm
    · intro p hp; exact Nat.lt_succ_of_lt (k8 p hp)
    · intro c hc
      rcases List.mem_append.1 hc with h1 | h1
      · exact Nat.lt_succ_of_lt (k9 c h1)
      · simp only [List.mem_singleton] at h1; subst h1; exact Nat.lt_succ_self _
    · intro q hq; exact Nat.lt_succ_of_lt (k10 q hq)
    · intro c hc
      rcases List.mem_append.1 hc with h1 | h1
      · exact k11 c h1
      · simp only [List.mem_singleton] at h1; subst h1; rfl
    · intro c hc
      rcases List.mem_append.1 hc with h1 | h1
      · exact k12 c h1
      · simp only [List.mem_singleton] at h1; subst h1; intro hw; simp [freshHot] at hw
    · intro c hc
      rcases List.mem_append.1 hc with h1 | h1
      · exact k13 c h1
      · simp only [List.mem_singleton] at h1; subst h1; intro hw; simp [freshHot] at hw

theorem CoreInv.createHots {st : PoolState} (h : CoreInv st) (creds : Bool) (n : Nat) :
    CoreInv (createHotConnections creds n st) := by
  induction n generalizing st with
  | zero => exact h
  | succ n ih => exact ih (h.createHot creds)

theorem createHot_connections (creds : Bool) (st : PoolState) :
    (createHotConnection creds st).connections = st.connections := by
  cases creds <;> simp [createHotConnection]

theorem createHot_pending (creds : Bool) (st : PoolState) :
    (createHotConnection creds st).pendingSlow = st.pendingSlow := by
  cases creds <;> simp [createHotConnection]

theorem createHot_resolved (creds : Bool) (st : PoolState) :
    (createHotConnection creds st).slowResolved = st.slowResolved := by
  cases creds <;> simp [createHotConnection]

theorem createHot_hotLen (creds : Bool) (st : PoolState) :
    (createHotConnection creds st).hotConnections.length
      = st.hotConnections.length + (if creds then 1 else 0) := by
  cases creds <;> simp [createHotConnection]

theorem createHots_connections (creds : Bool) (n : Nat) (st : PoolState) :
    (createHotConnections creds n st).connections = st.connections := by
  induction n generalizing st with
  | zero => rfl
  | succ n ih => rw [createHotConnections, ih, createHot_connections]

theorem createHots_pending (creds : Bool) (n : Nat) (st : PoolState) :
    (createHotConnections creds n st).pendingSlow = st.pendingSlow := by
  induction n generalizing st with
  | zero => rfl
  | succ n ih => rw [createHotConnections, ih, createHot_pending]

theorem createHots_resolved (creds : Bool) (n : Nat) (st : PoolState) :
    (createHotConnections creds n st).slowResolved = st.slowResolved := by
  induction n generalizing st with
  | zero => rfl
  | succ n ih => rw [createHotConnections, ih, createHot_resolved]

theorem createHots_hotLen (creds : Bool) (n : Nat) (st : PoolState) :
    (createHotConnections creds n st).hotConnections.length
      = st.hotConnections.length + (if creds then n else 0) := by
  induction n generalizing st with
  | zero => simp [createHotConnections]
  | succ n ih =>
    rw [createHotConnections, ih, createHot_hotLen]
    cases creds with
    | false => simp
    | true => simp; omega

theorem CoreInv.filterConns {st : PoolState} (h : CoreInv st)
    (q : (String × PoolConn) → Bool) :
    CoreInv { st with connections := st.connections.filter q } := by
  obtain ⟨k1, k2, k3, k4, k5, k6, k7, k8, k9, k10, k11, k12, k13⟩ := h
  have hsub : ∀ p ∈ st.connections.filter q, p ∈ st.connections :=
    fun p hp => (List.mem_filter.1 hp).1
  exact ⟨k1.sublist ((List.filter_sublist _).map _),
    k2.sublist ((List.filter_sublist _).map _), k3, k4,
    fun p hp => k5 p (hsub p hp), fun p hp => k6 p (hsub p hp), k7,
    fun p hp => k8 p (hsub p hp), k9, k10, k11, k12, k13⟩

theorem CoreInv.filterHot {st : PoolState} (h : CoreInv st) (q : PoolConn → Bool) :
    CoreInv { st with hotConnections := st.hotConnections.filter q } := by
  obtain ⟨k1, k2, k3, k4, k5, k6, k7, k8, k9, k10, k11, k12, k13⟩ := h
  have hsub : ∀ c ∈ st.hotConnections.filter q, c ∈ st.hotConnections :=
    fun c hc => (List.mem_filter.1 hc).1
  exact ⟨k1, k2, k3.sublist ((List.filter_sublist _).map _), k4,
    fun p hp c hc => k5 p hp c (hsub c hc), k6,
    fun c hc => k7 c (hsub c hc), k8,
    fun c hc => k9 c (hsub c hc), k10,
    fun c hc => k11 c (hsub c hc),
    fun c hc => k12 c (hsub c hc),
    fun c hc => k13 c (hsub c hc)⟩

theorem CoreInv.filterPend {st : PoolState} (h : CoreInv st)
    (q : (String × Nat) → Bool) :
    CoreInv { st with pendingSlow := st.pendingSlow.filter q } := by
  obtain ⟨k1, k2, k3, k4, k5, k6, k7, k8, k9, k10, k11, k12, k13⟩ := h
  have hsub : ∀ r ∈ st.pendingSlow.filter q, r ∈ st.pendingSlow :=
    fun r hr => (List.mem_filter.1 hr).1
  exact ⟨k1, k2, k3, k4.sublist ((List.filter_sublist _).map _),
    k5, fun p hp r hr => k6 p hp r (hsub r hr),
    fun c hc r hr => k7 c hc r (hsub r hr), k8, k9,
    fun r hr => k10 r (hsub r hr), k11, k12, k13⟩

theorem CoreInv.mapSetConn {st : PoolState} (h : CoreInv st) (cs : String) (v : PoolConn)
    (hvh : ∀ c ∈ st.hotConnections, v.sock ≠ c.sock)
    (hvp : ∀ q ∈ st.pendingSlow, v.sock ≠ q.2)
    (hvm : ∀ p ∈ st.connections, p.1 ≠ cs → p.2.sock ≠ v.sock)
    (hvb : v.sock < st.nextSock) :
    CoreInv { st with connections := mapSet st.connections cs v } := by
  obtain ⟨k1, k2, k3, k4, k5, k6, k7, k8, k9, k10, k11, k12, k13⟩ := h
  refine ⟨keys_mapSet_nodup k1, socks_mapSet k2 hvm, k3, k4, ?_, ?_, k7, ?_, k9, k10,
    k11, k12, k13⟩
  · intro p hp c hc
    rcases mem_mapSet hp with ⟨h1, _⟩ | h1
    · exact k5 p h1 c hc
    · subst h1; exact hvh c hc
  · intro p hp q hq
    rcases mem_mapSet hp with ⟨h1, _⟩ | h1
    · exact k6 p h1 q hq
    · subst h1; exact hvp q hq
  · intro p hp
    rcases mem_mapSet hp with ⟨h1, _⟩ | h1
    · exact k8 p h1
    · subst h1; exact hvb

theorem CoreInv.pendAppend {st : PoolState} (h : CoreInv st) (cs : String) :
    CoreInv { st with pendingSlow := st.pendingSlow ++ [(cs, st.nextSock)],
                      nextSock := st.nextSock + 1 } := by
  obtain ⟨k1, k2, k3, k4, k5, k6, k7, k8, k9, k10, k11, k12, k13⟩ := h
  refine ⟨k1, k2, k3, ?_, k5, ?_, ?_, ?_, ?_, ?_, k11, k12, k13⟩
  · rw [List.map_append]
    refine List.nodup_append.2 ⟨k4, by simp, ?_⟩
    intro a ha
    simp only [List.mem_map] at ha
    obtain ⟨r, hr, rfl⟩ := ha
    simp only [List.map_cons, List.map_nil, List.mem_singleton]
    exact Nat.ne_of_lt (k10 r hr)
  · intro p hp q hq
    rcases List.mem_append.1 hq with h1 | h1
    · exact k6 p hp q h1
    · simp only [List.mem_singleton] at h1; subst h1
      exact Nat.ne_of_lt (k8 p hp)
  · intro c hc q hq
    rcases List.mem_append.1 hq with h1 | h1
    · exact k7 c hc q h1
    · simp only [List.mem_singleton] at h1; subst h1
      exact Nat.ne_of_lt (k9 c hc)
  · intro p hp; exact Nat.lt_succ_of_lt (k8 p hp)
  · intro c hc; exact Nat.lt_succ_of_lt (k9 c hc)
  · intro q hq
    rcases List.mem_append.1 hq with h1 | h1
    · exact Nat.lt_succ_of_lt (k10 q h1)
    · simp only [List.mem_singleton] at h1; subst h1; exact Nat.lt_succ_self _

theorem CoreInv.hotOpen {st : PoolState} (h : CoreInv st) (k : Nat) :
    CoreInv (hotOpenStep st k) := by
  obtain ⟨k1, k2, k3, k4, k5, k6, k7, k8, k9, k10, k11, k12, k13⟩ := h
  have hsocks : (hotOpenStep st k).hotConnections.map PoolConn.sock
      = st.hotConnections.map PoolConn.sock := by
    simp only [hotOpenStep, List.map_map]
    apply List.map_congr_left
    intro c _
    simp only [Function.comp]
    split <;> rfl
  have hmem : ∀ c' ∈ (hotOpenStep st k).hotConnections,
      ∃ c ∈ st.hotConnections, c'.sock = c.sock ∧ c'.callSid = c.callSid ∧
        (c'.ws = WsState.opened → c'.isReady = true) ∧
        (c'.isReady = true → c'.initSent = true) := by
    intro c' hc'
    simp only [hotOpenStep, List.mem_map] at hc'
    obtain ⟨c, hc, rfl⟩ := hc'
    by_cases hcc : c.sock = k ∧ c.ws = WsState.connecting
    · exact ⟨c, hc, by simp [hcc], by simp [hcc], by simp [hcc], by simp [hcc]⟩
    · exact ⟨c, hc, by simp [hcc], by simp [hcc],
        by simp only [if_neg hcc]; exact k12 c hc,
        by simp only [if_neg hcc]; exact k13 c hc⟩
  refine ⟨k1, k2, by rw [hsocks]; exact k3, k4, ?_, k6, ?_, k8, ?_, k10, ?_, ?_, ?_⟩
  · intro p hp c' hc'
    obtain ⟨c, hc, hs, _⟩ := hmem c' hc'
    rw [hs]; exact k5 p hp c hc
  · intro c' hc' q hq
    obtain ⟨c, hc, hs, _⟩ := hmem c' hc'
    rw [hs]; exact k7 c hc q hq
  · intro c' hc'
    obtain ⟨c, hc, hs, _⟩ := hmem c' hc'
    rw [hs]; exact k9 c hc
  · intro c' hc'
    obtain ⟨c, hc, _, hcs, _⟩ := hmem c' hc'
    rw [hcs]; exact k11 c hc
  · intro c' hc'
    exact (hmem c' hc').choose_spec.2.2.2.1
  · intro c' hc'
    exact (hmem c' hc').choose_spec.2.2.2.2

theorem CoreInv.assignedClose {st : PoolState} (h : CoreInv st) (cs : String) :
    CoreInv (assignedCloseStep st cs) := by
  obtain ⟨k1, k2, k3, k4, k5, k6, k7, k8, k9, k10, k11, k12, k13⟩ := h
  have hkeys : (assignedCloseStep st cs).connections.map Prod.fst
      = st.connections.map Prod.fst := by
    simp only [assignedCloseStep, List.map_map]
    apply List.map_congr_left
    intro p _
    simp only [Function.comp]
    split <;> rfl
  have hsocks : (assignedCloseStep st cs).connections.map (fun p => p.2.sock)
      = st.connections.map (fun p => p.2.sock) := by
    simp only [assignedCloseStep, List.map_map]
    apply List.map_congr_left
    intro p _
    simp only [Function.comp]
    split <;> rfl
  have hmem : ∀ p' ∈ (assignedCloseStep st cs).connections,
      ∃ p ∈ st.connections, p'.2.sock = p.2.sock := by
    intro p' hp'
    simp only [assignedCloseStep, List.mem_map] at hp'
    obtain ⟨p, hp, rfl⟩ := hp'
    by_cases hpc : p.1 = cs
    · exact ⟨p, hp, by simp [hpc]⟩
    · exact ⟨p, hp, by simp [hpc]⟩
  refine ⟨by rw [hkeys]; exact k1, by rw [hsocks]; exact k2, k3, k4, ?_, ?_, k7, ?_,
    k9, k10, k11, k12, k13⟩
  · intro p' hp' c hc
    obtain ⟨p, hp, hs⟩ := hmem p' hp'
    rw [hs]; exact k5 p hp c hc
  · intro p' hp' q hq
    obtain ⟨p, hp, hs⟩ := hmem p' hp'
    rw [hs]; exact k6 p hp q hq
  · intro p' hp'
    obtain ⟨p, hp, hs⟩ := hmem p' hp'
    rw [hs]; exact k8 p hp

theorem CoreInv.tick {st : PoolState} (h : CoreInv st) (dt : Nat) :
    CoreInv (tickStep st dt) :=
  ⟨h.keysNd, h.mapNd, h.hotNd, h.pendNd, h.mh, h.mp, h.hp, h.mapB, h.hotB, h.pendB,
   h.hotUn, h.hotOR, h.hotRI⟩

theorem CoreInv.of_eq {st st' : PoolState} (h : CoreInv st)
    (hc : st'.connections = st.connections)
    (hh : st'.hotConnections = st.hotConnections)
    (hp : st'.pendingSlow = st.pendingSlow)
    (hn : st'.nextSock = st.nextSock) : CoreInv st' := by
  refine ⟨?_, ?_, ?_, ?_, ?_, ?_, ?_, ?_, ?_, ?_, ?_, ?_, ?_⟩
  · rw [hc]; exact h.keysNd
  · rw [hc]; exact h.mapNd
  · rw [hh]; exact h.hotNd
  · rw [hp]; exact h.pendNd
  · rw [hc, hh]; exact h.mh
  · rw [hc, hp]; exact h.mp
  · rw [hh, hp]; exact h.hp
  · rw [hc, hn]; exact h.mapB
  · rw [hh, hn]; exact h.hotB
  · rw [hp, hn]; exact h.pendB
  · rw [hh]; exact h.hotUn
  · rw [hh]; exact h.hotOR
  · rw [hh]; exact h.hotRI

theorem CoreInv.emptyHot {st : PoolState} (h : CoreInv st) :
    CoreInv { st with hotConnections := [] } := by
  refine ⟨h.keysNd, h.mapNd, List.nodup_nil, h.pendNd, ?_, h.mp, ?_, h.mapB, ?_,
    h.pendB, ?_, ?_, ?_⟩
  · intro p _ c hc; simp at hc
  · intro c hc; simp at hc
  · intro c hc; simp at hc
  · intro c hc; simp at hc
  · intro c hc; simp at hc
  · intro c hc; simp at hc

theorem CoreInv.slowOpen {st : PoolState} (h : CoreInv st) (k : Nat) :
    CoreInv (slowOpenStep st k) := by
  unfold slowOpenStep
  cases hf : st.pendingSlow.find? (fun p => p.2 == k) with
  | none => simp only [hf]; exact h
  | some pr =>
    simp only [hf]
    have hpr : pr ∈ st.pendingSlow := List.mem_of_find?_eq_some hf
    have hprk : pr.2 = k := by simpa using List.find?_some hf
    have h1 : CoreInv { st with pendingSlow := st.pendingSlow.filter (fun p => p.2 != k) } :=
      h.filterPend _
    refine CoreInv.of_eq (h1.mapSetConn pr.1
      { sock := k, createdAt := st.now, callSid := some pr.1, isReady := true,
        lastUsed := st.now, ws := WsState.opened, initSent := false } ?_ ?_ ?_ ?_)
      rfl rfl rfl rfl
    · intro c hc
      show k ≠ c.sock
      rw [← hprk]
      exact (h.hp c hc pr hpr).symm
    · intro q hq
      show k ≠ q.2
      have := (List.mem_filter.1 hq).2
      simp only [bne_iff_ne, ne_eq, decide_eq_true_eq] at this
      exact fun hqe => this hqe.symm
    · intro p hp _
      show p.2.sock ≠ k
      rw [← hprk]
      exact h.mp p hp pr hpr
    · show k < st.nextSock
      rw [← hprk]
      exact h.pendB pr hpr

theorem CoreInv.slowFail {st : PoolState} (h : CoreInv st) (k : Nat) :
    CoreInv (slowFailStep st k) := by
  unfold slowFailStep
  cases hf : st.pendingSlow.find? (fun p => p.2 == k) with
  | none => simp only [hf]; exact h
  | some pr =>
    simp only [hf]
    exact (h.filterPend _).of_eq rfl rfl rfl rfl

theorem CoreInv.acquireFb {st : PoolState} (h : CoreInv st) (creds : Bool) (cs : String) :
    CoreInv (acquireFallback creds cs st).1 := by
  unfold acquireFallback getHotConnection
  cases hf : st.hotConnections.find? (fun c =>
      c.isReady && c.ws == WsState.opened && c.callSid == none) with
  | none =>
    simp only [hf]
    cases creds with
    | true => exact h.pendAppend cs
    | false => exact h
  | some h0 =>
    simp only [hf]
    have hh0 : h0 ∈ st.hotConnections := List.mem_of_find?_eq_some hf
    apply CoreInv.createHot
    apply CoreInv.mapSetConn (h.filterHot (fun d => d.sock != h0.sock)) cs
      { h0 with callSid := some cs, lastUsed := st.now }
    · intro c hc
      show h0.sock ≠ c.sock
      have := (List.mem_filter.1 hc).2
      simp only [bne_iff_ne, ne_eq, decide_eq_true_eq] at this
      exact fun hce => this hce.symm
    · intro q hq
      exact h.hp h0 hh0 q hq
    · intro p hp _
      exact h.mh p hp h0 hh0
    · exact h.hotB h0 hh0

theorem CoreInv.acquire {st : PoolState} (h : CoreInv st) (creds : Bool) (cs : String) :
    CoreInv (acquireStep creds cs st).1 := by
  unfold acquireStep
  cases hg : mapGet st.connections cs with
  | none => simp only [hg]; exact h.acquireFb creds cs
  | some ex =>
    simp only [hg]
    by_cases hws : ex.ws = WsState.opened
    · simp only [if_pos hws]
      have he : (cs, ex) ∈ st.connections := mapGet_entry hg
      apply h.mapSetConn cs { ex with lastUsed := st.now }
      · intro c hc; exact h.mh (cs, ex) he c hc
      · intro q hq; exact h.mp (cs, ex) he q hq
      · intro p hp hpk heq
        have hpe : p = (cs, ex) := List.inj_on_of_nodup_map h.mapNd hp he heq
        exact hpk (by rw [hpe])
      · exact h.mapB (cs, ex) he
    · simp only [if_neg hws]; exact h.acquireFb creds cs

theorem CoreInv.cleanup {st : PoolState} (h : CoreInv st) :
    CoreInv (cleanupStep st) :=
  ((h.filterConns _).filterHot _).of_eq rfl rfl rfl rfl

theorem CoreInv.maintain {st : PoolState} (h : CoreInv st) (creds : Bool) :
    CoreInv (maintainStep creds st) :=
  h.cleanup.createHots creds _

theorem CoreInv.refresh {st : PoolState} (h : CoreInv st) (creds : Bool) :
    CoreInv (refreshStep creds st) :=
  h.emptyHot.createHots creds HOT_POOL_SIZE

/-- Structural invariant preservation over every pool event. -/
theorem CoreInv.step_core {st : PoolState} (h : CoreInv st) (creds : Bool) (e : PoolEv) :
    CoreInv (poolStep creds st e) := by
  cases e with
  | acquire cs => exact h.acquire creds cs
  | hotOpen k => exact h.hotOpen k
  | hotFail k => exact h.filterHot _
  | assignedClose cs => exact h.assignedClose cs
  | slowOpen k => exact h.slowOpen k
  | slowFail k => exact h.slowFail k
  | release cs => exact h.filterConns _
  | markActive cs => exact h.filterConns _
  | maintain => exact h.maintain creds
  | refresh => exact h.refresh creds
  | tick dt => exact h.tick dt

/-- The hot list after one cleanup consists exactly of the ready open
connections that `maintainHotPool` counts. -/
theorem cleanup_hot_all_active {st : PoolState} (h : CoreInv st) :
    (cleanupStep st).hotConnections.filter (fun c =>
        c.ws == WsState.opened && c.isReady) = (cleanupStep st).hotConnections := by
  apply List.filter_eq_self.2
  intro c hc
  have h1 : CoreInv (cleanupStep st) := h.cleanup
  have hmemf := List.mem_filter.1 hc
  have hws : c.ws = WsState.opened := by
    have := hmemf.2
    simp only [Bool.not_eq_true', Bool.or_eq_false_iff, bne_eq_false_iff_eq] at this
    exact this.2
  have hr : c.isReady = true := h1.hotOR c hc hws
  simp [hws, hr]

/-- Hot-pool size bound preservation over every pool event. -/
theorem hotLen_step {st : PoolState} (h : CoreInv st)
    (hlen : st.hotConnections.length ≤ HOT_POOL_SIZE) (creds : Bool) (e : PoolEv) :
    (poolStep creds st e).hotConnections.length ≤ HOT_POOL_SIZE := by
  cases e with
  | acquire cs =>
    show (acquireStep creds cs st).1.hotConnections.length ≤ HOT_POOL_SIZE
    unfold acquireStep
    cases hg : mapGet st.connections cs with
    | some ex =>
      by_cases hws : ex.ws = WsState.opened
      · simpa [hg, hws] using hlen
      · simp only [hg, if_neg hws]
        unfold acquireFallback getHotConnection
        cases hf : st.hotConnections.find? (fun c =>
            c.isReady && c.ws == WsState.opened && c.callSid == none) with
        | none =>
          simp only [hf]
          cases creds <;> simpa using hlen
        | some h0 =>
          simp only [hf]
          rw [createHot_hotLen]
          have hh0 : h0 ∈ st.hotConnections := List.mem_of_find?_eq_some hf
          have hlt : (st.hotConnections.filter (fun d => d.sock != h0.sock)).length
              < st.hotConnections.length :=
            List.length_filter_lt_length_iff_exists.2 ⟨h0, hh0, by simp⟩
          cases creds with
          | true =>
            show (st.hotConnections.filter (fun d => d.sock != h0.sock)).length + 1
                ≤ HOT_POOL_SIZE
            omega
          | false =>
            show (st.hotConnections.filter (fun d => d.sock != h0.sock)).length + 0
                ≤ HOT_POOL_SIZE
            omega
    | none =>
      simp only [hg]
      unfold acquireFallback getHotConnection
      cases hf : st.hotConnections.find? (fun c =>
          c.isReady && c.ws == WsState.opened && c.callSid == none) with
      | none =>
        simp only [hf]
        cases creds <;> simpa using hlen
      | some h0 =>
        simp only [hf]
        rw [createHot_hotLen]
        have hh0 : h0 ∈ st.hotConnections := List.mem_of_find?_eq_some hf
        have hlt : (st.hotConnections.filter (fun d => d.sock != h0.sock)).length
            < st.hotConnections.length :=
          List.length_filter_lt_length_iff_exists.2 ⟨h0, hh0, by simp⟩
        cases creds with
        | true =>
          show (st.hotConnections.filter (fun d => d.sock != h0.sock)).length + 1
              ≤ HOT_POOL_SIZE
          omega
        | false =>
          show (st.hotConnections.filter (fun d => d.sock != h0.sock)).length + 0
              ≤ HOT_POOL_SIZE
          omega
  | hotOpen k =>
    show (hotOpenStep st k).hotConnections.length ≤ HOT_POOL_SIZE
    simpa [hotOpenStep] using hlen
  | hotFail k =>
    show (hotFailStep st k).hotConnections.length ≤ HOT_POOL_SIZE
    exact le_trans (List.length_filter_le _ _) hlen
  | assignedClose cs =>
    show (assignedCloseStep st cs).hotConnections.length ≤ HOT_POOL_SIZE
    simpa [assignedCloseStep] using hlen
  | slowOpen k =>
    show (slowOpenStep st k).hotConnections.length ≤ HOT_POOL_SIZE
    unfold slowOpenStep
    cases hf : st.pendingSlow.find? (fun p => p.2 == k) with
    | none => simpa [hf] using hlen
    | some pr => simpa [hf] using hlen
  | slowFail k =>
    show (slowFailStep st k).hotConnections.length ≤ HOT_POOL_SIZE
    unfold slowFailStep
    cases hf : st.pendingSlow.find? (fun p => p.2 == k) with
    | none => simpa [hf] using hlen
    | some pr => simpa [hf] using hlen
  | release cs =>
    show (releaseStep st cs).hotConnections.length ≤ HOT_POOL_SIZE
    simpa [releaseStep] using hlen
  | markActive cs =>
    show (markActiveStep st cs).hotConnections.length ≤ HOT_POOL_SIZE
    simpa [markActiveStep] using hlen
  | maintain =>
    show (createHotConnections creds
        (HOT_POOL_SIZE - ((cleanupStep st).hotConnections.filter (fun c =>
          c.ws == WsState.opened && c.isReady)).length)
        (cleanupStep st)).hotConnections.length ≤ HOT_POOL_SIZE
    rw [cleanup_hot_all_active h, createHots_hotLen]
    have hclean : (cleanupStep st).hotConnections.length ≤ st.hotConnections.length :=
      List.length_filter_le _ _
    cases creds with
    | true =>
      show (cleanupStep st).hotConnections.length +
          (HOT_POOL_SIZE - (cleanupStep st).hotConnections.length) ≤ HOT_POOL_SIZE
      omega
    | false =>
      show (cleanupStep st).hotConnections.length + 0 ≤ HOT_POOL_SIZE
      omega
  | refresh =>
    show (refreshStep creds st).hotConnections.length ≤ HOT_POOL_SIZE
    unfold refreshStep preWarm
    rw [createHots_hotLen]
    cases creds <;> simp [HOT_POOL_SIZE]
  | tick dt =>
    show (tickStep st dt).hotConnections.length ≤ HOT_POOL_SIZE
    simpa [tickStep] using hlen

/-- The full invariant is preserved by every event. -/
theorem PoolInv.step_pool {st : PoolState} (h : PoolInv st) (creds : Bool) (e : PoolEv) :
    PoolInv (poolStep creds st e) :=
  ⟨h.1.step_core creds e, hotLen_step h.1 h.2 creds e⟩

/-- The pool state before `preWarmHotPool` runs in the constructor. -/
def poolBase : PoolState :=
  { connections := [], hotConnections := [], pendingSlow := [],
    slowResolved := [], nextSock := 0, now := 0 }

theorem poolBase_core : CoreInv poolBase := by
  constructor <;> simp [poolBase]

/-- Every reachable pool state satisfies the invariant. -/
theorem poolReach_inv {creds : Bool} {st : PoolState} (h : PoolReach creds st) :
    PoolInv st := by
  induction h with
  | init =>
    constructor
    · exact poolBase_core.createHots creds HOT_POOL_SIZE
    · show (createHotConnections creds HOT_POOL_SIZE poolBase).hotConnections.length
          ≤ HOT_POOL_SIZE
      rw [createHots_hotLen]
      cases creds <;> simp [poolBase]
  | step st e _ ih => exact ih.step_pool creds e

/-! ### Socket freshness: a socket gone from the pool never comes back -/

/-- Every socket id the pool currently references. -/
def poolSocks (st : PoolState) : List Nat :=
  st.connections.map (fun p => p.2.sock) ++ st.hotConnections.map PoolConn.sock ++
    st.pendingSlow.map Prod.snd

theorem mem_poolSocks {st : PoolState} {x : Nat} : x ∈ poolSocks st ↔
    (∃ p ∈ st.connections, p.2.sock = x) ∨ (∃ c ∈ st.hotConnections, c.sock = x) ∨
      (∃ q ∈ st.pendingSlow, q.2 = x) := by
  simp [poolSocks, List.mem_append, List.mem_map, or_assoc]

theorem fresh_createHot {st : PoolState} {a : Nat} (ha : a ∉ poolSocks st)
    (hb : a < st.nextSock) (creds : Bool) :
    a ∉ poolSocks (createHotConnection creds st) ∧
      a < (createHotConnection creds st).nextSock := by
  cases creds with
  | false => simpa [createHotConnection] using ⟨ha, hb⟩
  | true =>
    simp only [createHotConnection, if_pos]
    constructor
    · intro hmem
      rcases mem_poolSocks.1 hmem with ⟨p, hp, hps⟩ | ⟨c, hc, hcs⟩ | ⟨q, hq, hqs⟩
      · exact ha (mem_poolSocks.2 (Or.inl ⟨p, hp, hps⟩))
      · rcases List.mem_append.1 hc with h1 | h1
        · exact ha (mem_poolSocks.2 (Or.inr (Or.inl ⟨c, h1, hcs⟩)))
        · simp only [List.mem_singleton] at h1
          subst h1
          simp only [freshHot] at hcs
          omega
      · exact ha (mem_poolSocks.2 (Or.inr (Or.inr ⟨q, hq, hqs⟩)))
    · exact Nat.lt_succ_of_lt hb

theorem fresh_createHots {st : PoolState} {a : Nat} (ha : a ∉ poolSocks st)
    (hb : a < st.nextSock) (creds : Bool) (n : Nat) :
    a ∉ poolSocks (createHotConnections creds n st) ∧
      a < (createHotConnections creds n st).nextSock := by
  induction n generalizing st with
  | zero => exact ⟨ha, hb⟩
  | succ n ih =>
    obtain ⟨h1, h2⟩ := fresh_createHot ha hb creds
    exact ih h1 h2

theorem fresh_filtered {st st' : PoolState} {a : Nat} (ha : a ∉ poolSocks st)
    (hb : a < st.nextSock)
    (hc : ∀ p ∈ st'.connections, p ∈ st.connections)
    (hh : ∀ c ∈ st'.hotConnections, c ∈ st.hotConnections)
    (hp : ∀ q ∈ st'.pendingSlow, q ∈ st.pendingSlow)
    (hn : st.nextSock ≤ st'.nextSock) :
    a ∉ poolSocks st' ∧ a < st'.nextSock := by
  refine ⟨?_, lt_of_lt_of_le hb hn⟩
  intro hmem
  rcases mem_poolSocks.1 hmem with ⟨p, hpm, hps⟩ | ⟨c, hcm, hcs⟩ | ⟨q, hqm, hqs⟩
  · exact ha (mem_poolSocks.2 (Or.inl ⟨p, hc p hpm, hps⟩))
  · exact ha (mem_poolSocks.2 (Or.inr (Or.inl ⟨c, hh c hcm, hcs⟩)))
  · exact ha (mem_poolSocks.2 (Or.inr (Or.inr ⟨q, hp q hqm, hqs⟩)))

/-- A socket id absent from the pool and below the freshness counter
stays absent (and below the counter) across every event. -/
theorem fresh_pres {st : PoolState} {a : Nat} (ha : a ∉ poolSocks st)
    (hb : a < st.nextSock) (creds : Bool) (e : PoolEv) :
    a ∉ poolSocks (poolStep creds st e) ∧ a < (poolStep creds st e).nextSock := by
  cases e with
  | acquire cs =>
    show a ∉ poolSocks (acquireStep creds cs st).1 ∧ a < (acquireStep creds cs st).1.nextSock
    unfold acquireStep
    have hfb : a ∉ poolSocks (acquireFallback creds cs st).1 ∧
        a < (acquireFallback creds cs st).1.nextSock := by
      unfold acquireFallback getHotConnection
      cases hf : st.hotConnections.find? (fun c =>
          c.isReady && c.ws == WsState.opened && c.callSid == none) with
      | none =>
        simp only [hf]
        cases creds with
        | false => exact ⟨ha, hb⟩
        | true =>
          refine ⟨?_, Nat.lt_succ_of_lt hb⟩
          intro hmem
          rcases mem_poolSocks.1 hmem with ⟨p, hp, hps⟩ | ⟨c, hc, hcs⟩ | ⟨q, hq, hqs⟩
          · exact ha (mem_poolSocks.2 (Or.inl ⟨p, hp, hps⟩))
          · exact ha (mem_poolSocks.2 (Or.inr (Or.inl ⟨c, hc, hcs⟩)))
          · rcases List.mem_append.1 hq with h1 | h1
            · exact ha (mem_poolSocks.2 (Or.inr (Or.inr ⟨q, h1, hqs⟩)))
            · simp only [List.mem_singleton] at h1; subst h1; simp at hqs; omega
      | some h0 =>
        simp only [hf]
        have hh0 : h0 ∈ st.hotConnections := List.mem_of_find?_eq_some hf
        have hmid : a ∉ poolSocks
            { st with hotConnections := st.hotConnections.filter (fun d => d.sock != h0.sock),
                      connections := mapSet st.connections cs
                        { h0 with callSid := some cs, lastUsed := st.now } } ∧
            a < st.nextSock := by
          refine ⟨?_, hb⟩
          intro hmem
          rcases mem_poolSocks.1 hmem with ⟨p, hp, hps⟩ | ⟨c, hc, hcs⟩ | ⟨q, hq, hqs⟩
          · rcases mem_mapSet hp with ⟨h1, _⟩ | h1
            · exact ha (mem_poolSocks.2 (Or.inl ⟨p, h1, hps⟩))
            · subst h1
              exact ha (mem_poolSocks.2 (Or.inr (Or.inl ⟨h0, hh0, hps⟩)))
          · exact ha (mem_poolSocks.2 (Or.inr (Or.inl ⟨c, (List.mem_filter.1 hc).1, hcs⟩)))
          · exact ha (mem_poolSocks.2 (Or.inr (Or.inr ⟨q, hq, hqs⟩)))
        exact fresh_createHot hmid.1 hmid.2 creds
    cases hg : mapGet st.connections cs with
    | none => simpa only [hg] using hfb
    | some ex =>
      simp only [hg]
      by_cases hws : ex.ws = WsState.opened
      · simp only [if_pos hws]
        have he : (cs, ex) ∈ st.connections := mapGet_entry hg
        refine ⟨?_, hb⟩
        intro hmem
        rcases mem_poolSocks.1 hmem with ⟨p, hp, hps⟩ | ⟨c, hc, hcs⟩ | ⟨q, hq, hqs⟩
        · rcases mem_mapSet hp with ⟨h1, _⟩ | h1
          · exact ha (mem_poolSocks.2 (Or.inl ⟨p, h1, hps⟩))
          · subst h1
            exact ha (mem_poolSocks.2 (Or.inl ⟨(cs, ex), he, hps⟩))
        · exact ha (mem_poolSocks.2 (Or.inr (Or.inl ⟨c, hc, hcs⟩)))
        · exact ha (mem_poolSocks.2 (Or.inr (Or.inr ⟨q, hq, hqs⟩)))
      · simpa only [if_neg hws] using hfb
  | hotOpen k =>
    show a ∉ poolSocks (hotOpenStep st k) ∧ a < (hotOpenStep st k).nextSock
    refine ⟨?_, hb⟩
    intro hmem
    rcases mem_poolSocks.1 hmem with ⟨p, hp, hps⟩ | ⟨c, hc, hcs⟩ | ⟨q, hq, hqs⟩
    · exact ha (mem_poolSocks.2 (Or.inl ⟨p, hp, hps⟩))
    · simp only [hotOpenStep, List.mem_map] at hc
      obtain ⟨c0, hc0, rfl⟩ := hc
      have : c0.sock = a := by
        by_cases hcc : c0.sock = k ∧ c0.ws = WsState.connecting
        · simpa [hcc] using hcs
        · simpa [hcc] using hcs
      exact ha (mem_poolSocks.2 (Or.inr (Or.inl ⟨c0, hc0, this⟩)))
    · exact ha (mem_poolSocks.2 (Or.inr (Or.inr ⟨q, hq, hqs⟩)))
  | hotFail k =>
    exact fresh_filtered ha hb (fun p hp => hp)
      (fun c hc => (List.mem_filter.1 hc).1) (fun q hq => hq) (le_refl _)
  | assignedClose cs =>
    show a ∉ poolSocks (assignedCloseStep st cs) ∧ a < (assignedCloseStep st cs).nextSock
    refine ⟨?_, hb⟩
    intro hmem
    rcases mem_poolSocks.1 hmem with ⟨p, hp, hps⟩ | ⟨c, hc, hcs⟩ | ⟨q, hq, hqs⟩
    · simp only [assignedCloseStep, List.mem_map] at hp
      obtain ⟨p0, hp0, rfl⟩ := hp
      have : p0.2.sock = a := by
        by_cases hpc : p0.1 = cs
        · simpa [hpc] using hps
        · simpa [hpc] using hps
      exact ha (mem_poolSocks.2 (Or.inl ⟨p0, hp0, this⟩))
    · exact ha (mem_poolSocks.2 (Or.inr (Or.inl ⟨c, hc, hcs⟩)))
    · exact ha (mem_poolSocks.2 (Or.inr (Or.inr ⟨q, hq, hqs⟩)))
  | slowOpen k =>
    show a ∉ poolSocks (slowOpenStep st k) ∧ a < (slowOpenStep st k).nextSock
    unfold slowOpenStep
    cases hf : st.pendingSlow.find? (fun p => p.2 == k) with
    | none => simpa only [hf] using ⟨ha, hb⟩
    | some pr =>
      simp only [hf]
      have hpr : pr ∈ st.pendingSlow := List.mem_of_find?_eq_some hf
      have hprk : pr.2 = k := by simpa using List.find?_some hf
      refine ⟨?_, hb⟩
      intro hmem
      rcases mem_poolSocks.1 hmem with ⟨p, hp, hps⟩ | ⟨c, hc, hcs⟩ | ⟨q, hq, hqs⟩
      · rcases mem_mapSet hp with ⟨h1, _⟩ | h1
        · exact ha (mem_poolSocks.2 (Or.inl ⟨p, h1, hps⟩))
        · subst h1
          have : pr.2 = a := by rw [hprk]; exact hps
          exact ha (mem_poolSocks.2 (Or.inr (Or.inr ⟨pr, hpr, this⟩)))
      · exact ha (mem_poolSocks.2 (Or.inr (Or.inl ⟨c, hc, hcs⟩)))
      · exact ha (mem_poolSocks.2 (Or.inr (Or.inr ⟨q, (List.mem_filter.1 hq).1, hqs⟩)))
  | slowFail k =>
    show a ∉ poolSocks (slowFailStep st k) ∧ a < (slowFailStep st k).nextSock
    unfold slowFailStep
    cases hf : st.pendingSlow.find? (fun p => p.2 == k) with
    | none => simpa only [hf] using ⟨ha, hb⟩
    | some pr =>
      simp only [hf]
      exact fresh_filtered ha hb (fun p hp => hp) (fun c hc => hc)
        (fun q hq => (List.mem_filter.1 hq).1) (le_refl _)
  | release cs =>
    exact fresh_filtered ha hb (fun p hp => (List.mem_filter.1 hp).1)
      (fun c hc => hc) (fun q hq => hq) (le_refl _)
  | markActive cs =>
    exact fresh_filtered ha hb (fun p hp => (List.mem_filter.1 hp).1)
      (fun c hc => hc) (fun q hq => hq) (le_refl _)
  | maintain =>
    show a ∉ poolSocks (maintainStep creds st) ∧ a < (maintainStep creds st).nextSock
    have hclean : a ∉ poolSocks (cleanupStep st) ∧ a < (cleanupStep st).nextSock :=
      fresh_filtered ha hb (fun p hp => (List.mem_filter.1 hp).1)
        (fun c hc => (List.mem_filter.1 hc).1) (fun q hq => hq) (le_refl _)
    exact fresh_createHots hclean.1 hclean.2 creds _
  | refresh =>
    show a ∉ poolSocks (refreshStep creds st) ∧ a < (refreshStep creds st).nextSock
    have hempty : a ∉ poolSocks { st with hotConnections := [] } ∧
        a < ({ st with hotConnections := [] } : PoolState).nextSock := by
      refine ⟨?_, hb⟩
      intro hmem
      rcases mem_poolSocks.1 hmem with ⟨p, hp, hps⟩ | ⟨c, hc, _⟩ | ⟨q, hq, hqs⟩
      · exact ha (mem_poolSocks.2 (Or.inl ⟨p, hp, hps⟩))
      · simp at hc
      · exact ha (mem_poolSocks.2 (Or.inr (Or.inr ⟨q, hq, hqs⟩)))
    exact fresh_createHots hempty.1 hempty.2 creds HOT_POOL_SIZE
  | tick dt => exact ⟨ha, hb⟩

theorem fresh_run {st : PoolState} {a : Nat} (ha : a ∉ poolSocks st)
    (hb : a < st.nextSock) (creds : Bool) (evs : List PoolEv) :
    a ∉ poolSocks (poolRun creds st evs) ∧ a < (poolRun creds st evs).nextSock := by
  induction evs generalizing st with
  | nil => exact ⟨ha, hb⟩
  | cons e r ih =>
    obtain ⟨h1, h2⟩ := fresh_pres ha hb creds e
    exact ih h1 h2

/-- The socket handed back (or created) by `getOrCreateConnection`: the
reused assignment, the hot connection's socket, or the slow-path socket
whose `open` event will resolve the pending promise. -/
def resSock : AcquireRes → Option Nat
  | AcquireRes.reused s => some s
  | AcquireRes.hotHit c => some c.sock
  | AcquireRes.slowPending s => some s
  | AcquireRes.noCreds => none

theorem resSock_spec {creds : Bool} {cs : String} {st : PoolState} {s : Nat}
    (h : resSock (acquireStep creds cs st).2 = some s) :
    s ∈ poolSocks st ∨ s = st.nextSock := by
  unfold acquireStep at h
  have hfb : resSock (acquireFallback creds cs st).2 = some s →
      s ∈ poolSocks st ∨ s = st.nextSock := by
    intro h
    unfold acquireFallback getHotConnection at h
    cases hf : st.hotConnections.find? (fun c =>
        c.isReady && c.ws == WsState.opened && c.callSid == none) with
    | none =>
      simp only [hf] at h
      cases creds with
      | false => simp [resSock] at h
      | true =>
        simp only [resSock] at h
        exact Or.inr (by simpa using h.symm)
    | some h0 =>
      simp only [hf, resSock] at h
      refine Or.inl (mem_poolSocks.2 (Or.inr (Or.inl
        ⟨h0, List.mem_of_find?_eq_some hf, ?_⟩)))
      simpa using h
  cases hg : mapGet st.connections cs with
  | none =>
    simp only [hg] at h
    exact hfb h
  | some ex =>
    simp only [hg] at h
    by_cases hws : ex.ws = WsState.opened
    · rw [if_pos hws] at h
      simp only [resSock] at h
      refine Or.inl (mem_poolSocks.2 (Or.inl ⟨(cs, ex), mapGet_entry hg, ?_⟩))
      simpa using h
    · rw [if_neg hws] at h
      exact hfb h

/-- **C7**: in every reachable pool state, the assigned map binds each
call id to at most one connection and each pooled connection to at most
one call id; and once `release(callId)` removes a socket, no later
sequence of events ever brings that socket back into any pool
collection, so no subsequent `acquire` — for the same or any call id —
can return it: every returned or newly created socket differs from the
released one. -/
theorem C7_assignment_unique_and_release_fresh {creds : Bool} {st : PoolState}
    (h : PoolReach creds st) :
    ((st.connections.map Prod.fst).Nodup ∧
      (∀ p ∈ st.connections, ∀ q ∈ st.connections, p.2.sock = q.2.sock → p = q)) ∧
    (∀ cs c, mapGet st.connections cs = some c →
      ∀ evs : List PoolEv,
        c.sock ∉ poolSocks (poolRun creds (releaseStep st cs) evs) ∧
        (∀ cs₂, resSock (acquireStep creds cs₂
            (poolRun creds (releaseStep st cs) evs)).2 ≠ some c.sock)) := by
  have hinv := poolReach_inv h
  refine ⟨⟨hinv.1.keysNd, ?_⟩, ?_⟩
  · intro p hp q hq hpq
    exact List.inj_on_of_nodup_map hinv.1.mapNd hp hq hpq
  · intro cs c hget evs
    have he : (cs, c) ∈ st.connections := mapGet_entry hget
    have hrel : c.sock ∉ poolSocks (releaseStep st cs) := by
      intro hmem
      rcases mem_poolSocks.1 hmem with ⟨p, hp, hps⟩ | ⟨c0, hc0, hcs⟩ | ⟨q, hq, hqs⟩
      · have hpm := List.mem_filter.1 hp
        have hpe : p = (cs, c) :=
          List.inj_on_of_nodup_map hinv.1.mapNd hpm.1 he hps
        have : p.1 ≠ cs := by simpa using hpm.2
        exact this (by rw [hpe])
      · exact hinv.1.mh (cs, c) he c0 hc0 hcs.symm
      · exact hinv.1.mp (cs, c) he q hq hqs.symm
    have hb : c.sock < (releaseStep st cs).nextSock := hinv.1.mapB (cs, c) he
    obtain ⟨h1, h2⟩ := fresh_run hrel hb creds evs
    refine ⟨h1, ?_⟩
    intro cs₂ hres
    rcases resSock_spec hres with hmem | heq
    · exact h1 hmem
    · omega

theorem C7_assignment_unique_witness :
    ((poolRun true (poolInit true)
        [PoolEv.acquire "CA1", PoolEv.slowOpen 3]).connections.map Prod.fst).Nodup ∧
    3 ∉ poolSocks (poolRun true
        (releaseStep (poolRun true (poolInit true)
          [PoolEv.acquire "CA1", PoolEv.slowOpen 3]) "CA1")
        [PoolEv.acquire "CA2"]) := by
  have hreach : PoolReach true (poolRun true (poolInit true)
      [PoolEv.acquire "CA1", PoolEv.slowOpen 3]) :=
    PoolReach.step _ (PoolEv.slowOpen 3)
      (PoolReach.step _ (PoolEv.acquire "CA1") PoolReach.init)
  refine ⟨(C7_assignment_unique_and_release_fresh hreach).1.1, ?_⟩
  exact ((C7_assignment_unique_and_release_fresh hreach).2 "CA1"
    { sock := 3, createdAt := 0, callSid := some "CA1", isReady := true,
      lastUsed := 0, ws := WsState.opened, initSent := false }
    (by decide) [PoolEv.acquire "CA2"]).1

/-- **C8**: in every reachable pool state — in particular immediately
after every maintenance cycle (eviction followed by top-up) — the hot
pool size lies within `[0, HOT_POOL_SIZE]`: it never exceeds the target
of 3 for any sequence of acquisitions, socket open/close/error events,
maintenance and refresh ticks. -/
theorem C8_hot_pool_within_target {creds : Bool} {st : PoolState}
    (h : PoolReach creds st) :
    st.hotConnections.length ≤ HOT_POOL_SIZE ∧
    (maintainStep creds st).hotConnections.length ≤ HOT_POOL_SIZE :=
  ⟨(poolReach_inv h).2, (poolReach_inv (PoolReach.step st PoolEv.maintain h)).2⟩

theorem C8_hot_pool_within_target_witness :
    (poolInit true).hotConnections.length ≤ HOT_POOL_SIZE ∧
    (maintainStep true (poolInit true)).hotConnections.length ≤ HOT_POOL_SIZE :=
  C8_hot_pool_within_target PoolReach.init

/-! ### Slow-path promise behaviour (C5, C6) -/

theorem acquireFb_resolved (creds : Bool) (cs : String) (st : PoolState) :
    (acquireFallback creds cs st).1.slowResolved = st.slowResolved := by
  unfold acquireFallback getHotConnection
  cases hf : st.hotConnections.find? (fun c =>
      c.isReady && c.ws == WsState.opened && c.callSid == none) with
  | none =>
    simp only [hf]
    cases creds <;> rfl
  | some h0 =>
    simp only [hf]
    rw [createHot_resolved]

theorem acquire_resolved (creds : Bool) (cs : String) (st : PoolState) :
    (acquireStep creds cs st).1.slowResolved = st.slowResolved := by
  unfold acquireStep
  cases hg : mapGet st.connections cs with
  | none => simp only [hg]; exact acquireFb_resolved creds cs st
  | some ex =>
    simp only [hg]
    by_cases hws : ex.ws = WsState.opened
    · simp only [if_pos hws]
    · simp only [if_neg hws]; exact acquireFb_resolved creds cs st

/-- Only a slow-path socket's `open` or `error` event settles a
slow-path promise: every other event leaves the resolution log
untouched. -/
theorem poolStep_resolved {creds : Bool} {st : PoolState} {e : PoolEv}
    (h : ∀ k, e ≠ PoolEv.slowOpen k ∧ e ≠ PoolEv.slowFail k) :
    (poolStep creds st e).slowResolved = st.slowResolved := by
  cases e with
  | acquire cs => exact acquire_resolved creds cs st
  | hotOpen k => rfl
  | hotFail k => rfl
  | assignedClose cs => rfl
  | slowOpen k => exact absurd rfl (h k).1
  | slowFail k => exact absurd rfl (h k).2
  | release cs => rfl
  | markActive cs => rfl
  | maintain =>
    show (maintainStep creds st).slowResolved = st.slowResolved
    unfold maintainStep
    rw [createHots_resolved]
    rfl
  | refresh =>
    show (refreshStep creds st).slowResolved = st.slowResolved
    unfold refreshStep preWarm
    rw [createHots_resolved]
  | tick dt => rfl

theorem poolRun_resolved {creds : Bool} {st : PoolState} {evs : List PoolEv}
    (h : ∀ k, PoolEv.slowOpen k ∉ evs ∧ PoolEv.slowFail k ∉ evs) :
    (poolRun creds st evs).slowResolved = st.slowResolved := by
  induction evs generalizing st with
  | nil => rfl
  | cons e r ih =>
    have he : ∀ k, e ≠ PoolEv.slowOpen k ∧ e ≠ PoolEv.slowFail k := by
      intro k
      constructor
      · intro heq; exact (h k).1 (by simp [heq])
      · intro heq; exact (h k).2 (by simp [heq])
    have hr : ∀ k, PoolEv.slowOpen k ∉ r ∧ PoolEv.slowFail k ∉ r := by
      intro k
      exact ⟨fun hm => (h k).1 (List.mem_cons_of_mem _ hm),
        fun hm => (h k).2 (List.mem_cons_of_mem _ hm)⟩
    show (poolRun creds (poolStep creds st e) r).slowResolved = st.slowResolved
    rw [ih hr, poolStep_resolved he]

/-- **C5 counterexample**: after a cold-path `acquire`, 20 seconds of
wall-clock time and two maintenance cycles pass and the slow-path
promise is still pending — nothing has resolved it, refuting the
claimed bounded 10 s timeout (there is no timeout in
`createNewConnection`). -/
theorem C5_no_timeout_counterexample :
    (poolRun true (poolInit true)
        [PoolEv.acquire "CA1", PoolEv.tick 10000, PoolEv.maintain,
         PoolEv.tick 10000, PoolEv.maintain]).slowResolved = [] ∧
    (poolRun true (poolInit true)
        [PoolEv.acquire "CA1", PoolEv.tick 10000, PoolEv.maintain,
         PoolEv.tick 10000, PoolEv.maintain]).pendingSlow = [("CA1", 3)] := by
  decide

/-- **C5 amended**: when `acquire(callId)` finds no open assignment and
no ready hot socket, it opens a new provider socket directly and the
returned promise resolves with that socket once its `open` event fires,
resolves `null` if an `error` event fires first, and otherwise never
settles: no other event — maintenance, refresh, or any amount of
elapsed time — resolves it.  There is no 10 s timeout on this path (the
10 s timeout exists only in the session's own direct connection). -/
theorem C5_amended_cold_path :
    (∀ (st : PoolState) (cs : String),
      mapGet st.connections cs = none →
      st.hotConnections.find? (fun c =>
        c.isReady && c.ws == WsState.opened && c.callSid == none) = none →
      acquireStep true cs st
        = ({ st with pendingSlow := st.pendingSlow ++ [(cs, st.nextSock)],
                     nextSock := st.nextSock + 1 },
            AcquireRes.slowPending st.nextSock)) ∧
    (∀ (st : PoolState) (k : Nat) (pr : String × Nat),
      st.pendingSlow.find? (fun p => p.2 == k) = some pr →
      (slowOpenStep st k).slowResolved = st.slowResolved ++ [(pr.1, some k)]) ∧
    (∀ (st : PoolState) (k : Nat) (pr : String × Nat),
      st.pendingSlow.find? (fun p => p.2 == k) = some pr →
      (slowFailStep st k).slowResolved = st.slowResolved ++ [(pr.1, none)]) ∧
    (∀ (creds : Bool) (st : PoolState) (evs : List PoolEv),
      (∀ k, PoolEv.slowOpen k ∉ evs ∧ PoolEv.slowFail k ∉ evs) →
      (poolRun creds st evs).slowResolved = st.slowResolved) := by
  refine ⟨?_, ?_, ?_, ?_⟩
  · intro st cs hget hfind
    unfold acquireStep acquireFallback getHotConnection
    simp only [hget, hfind]
    simp
  · intro st k pr hfind
    unfold slowOpenStep
    simp only [hfind]
  · intro st k pr hfind
    unfold slowFailStep
    simp only [hfind]
  · intro creds st evs h
    exact poolRun_resolved h

theorem C5_amended_cold_path_witness :
    acquireStep true "CA1" poolBase
      = ({ poolBase with pendingSlow := [("CA1", 0)], nextSock := 1 },
          AcquireRes.slowPending 0) :=
  C5_amended_cold_path.1 poolBase "CA1" rfl rfl

/-- `Map.set` then `Map.get` on the same key returns the new value. -/
theorem mapGet_mapSet (m : List (String × PoolConn)) (k : String) (v : PoolConn) :
    mapGet (mapSet m k v) k = some v := by
  unfold mapGet mapSet
  rw [List.find?_append]
  have h1 : (m.filter (fun p => p.1 != k)).find? (fun p => p.1 == k) = none := by
    apply List.find?_eq_none.2
    intro p hp
    have h2 := (List.mem_filter.1 hp).2
    simp only [bne_iff_ne, ne_eq, decide_eq_true_eq] at h2
    simp [h2]
  rw [h1]
  simp

/-- A `hotHit` result of `acquire` always carries a connection on which
the initiation handshake was sent (set in the hot socket's `open`
handler, required by the availability filter's `isReady`). -/
theorem hotHit_initSent {creds : Bool} {cs : String} {st st2 : PoolState}
    {conn : PoolConn} (hinv : CoreInv st)
    (h : acquireStep creds cs st = (st2, AcquireRes.hotHit conn)) :
    conn.initSent = true := by
  unfold acquireStep at h
  have hfb : acquireFallback creds cs st = (st2, AcquireRes.hotHit conn) →
      conn.initSent = true := by
    intro h
    unfold acquireFallback getHotConnection at h
    cases hf : st.hotConnections.find? (fun c =>
        c.isReady && c.ws == WsState.opened && c.callSid == none) with
    | none =>
      simp only [hf] at h
      cases creds with
      | true => simp at h
      | false => simp at h
    | some h0 =>
      simp only [hf] at h
      have hconn : conn = { h0 with callSid := some cs, lastUsed := st.now } := by
        have := congrArg Prod.snd h
        simpa using this.symm
      have hready : h0.isReady = true := by
        have hp := List.find?_some hf
        simp only [Bool.and_eq_true] at hp
        exact hp.1.1
      have := hinv.hotRI h0 (List.mem_of_find?_eq_some hf) hready
      rw [hconn]
      exact this
  cases hg : mapGet st.connections cs with
  | none =>
    simp only [hg] at h
    exact hfb h
  | some ex =>
    simp only [hg] at h
    by_cases hws : ex.ws = WsState.opened
    · rw [if_pos hws] at h
      simp at h
    · rw [if_neg hws] at h
      exact hfb h

/-- **C6 counterexample**: a slow-path acquisition.  The promise
resolves with socket 3, yet the stored connection has `initSent =
false`: `createNewConnection` never sends the initiation handshake —
only hot connections receive it. -/
theorem C6_slow_path_no_handshake_counterexample :
    (poolRun true (poolInit true)
        [PoolEv.acquire "CA1", PoolEv.slowOpen 3]).slowResolved = [("CA1", some 3)] ∧
    (mapGet (poolRun true (poolInit true)
        [PoolEv.acquire "CA1", PoolEv.slowOpen 3]).connections "CA1").map
      PoolConn.initSent = some false := by
  decide

/-- **C6 amended**: a socket acquired from the hot pool has had the
provider's initiation handshake sent on it by acquisition time; a
socket opened by the slow path is stored and returned with no handshake
ever sent by the pool. -/
theorem C6_amended_handshake {creds : Bool} {st : PoolState} (h : PoolReach creds st) :
    (∀ (cs : String) (st2 : PoolState) (conn : PoolConn),
      acquireStep creds cs st = (st2, AcquireRes.hotHit conn) →
      conn.initSent = true) ∧
    (∀ (k : Nat) (pr : String × Nat),
      st.pendingSlow.find? (fun p => p.2 == k) = some pr →
      (mapGet (slowOpenStep st k).connections pr.1).map PoolConn.initSent
        = some false) := by
  constructor
  · intro cs st2 conn hacq
    exact hotHit_initSent (poolReach_inv h).1 hacq
  · intro k pr hfind
    unfold slowOpenStep
    simp only [hfind]
    rw [mapGet_mapSet]
    rfl

theorem C6_amended_handshake_witness :
    (mapGet (slowOpenStep
        (poolRun true (poolInit true) [PoolEv.acquire "CA1"]) 3).connections
      "CA1").map PoolConn.initSent = some false := by
  have hreach : PoolReach true (poolRun true (poolInit true) [PoolEv.acquire "CA1"]) :=
    PoolReach.step _ (PoolEv.acquire "CA1") PoolReach.init
  exact (C6_amended_handshake hreach).2 3 ("CA1", 3) (by decide)

end Bridge
